import Mathlib

/-!
Verification of the bun-smtp SMTP/LMTP server core.

This file shallowly embeds the parts of the source relevant to the
stated properties:

* `src/smtp-parser.ts` — the two-mode wire protocol state machine
  (command-line splitting and the dot-unstuffing DATA stream), embedded
  over byte lists (`List Nat`).  JavaScript loops over buffer indices
  are rendered as fuel-indexed recursions; the fuel passed at every
  entry point provably exceeds the iteration count, so the embeddings
  compute exactly what the source loops compute.
* `src/address-parser.ts` — `parseAddressCommand` over character lists.
* `src/auth.ts` — the AUTH PLAIN SASL handler and
  `computeTransmissionType`.
* `src/connection.ts` — the reply builders (`getEnhancedCode`,
  `buildResponse`, `buildMultiResponse`), `resetSession`, the EHLO,
  MAIL and STARTTLS handlers, and the completion continuation of the
  DATA handler.

Side effects that do not influence the verified properties (socket
writes, timers, the DNS resolver) are not modelled; handler outcomes
are returned as inductive values recording which replies are sent and
which embedding callbacks would be invoked.
-/

set_option autoImplicit false

namespace BunSmtp

/-! ### Bytes and byte-level helpers -/

/-- Bytes of a `Buffer` are modelled as natural numbers (values < 256 in
every run of the real program; no arithmetic here ever wraps). -/
abbrev Byte := Nat

def bCR : Byte := 13

def bLF : Byte := 10

def bDOT : Byte := 46

/-- `END_SEQ = Buffer.from("\r\n.\r\n")` from `smtp-parser.ts`. -/
def endSeq : List Byte := [bCR, bLF, bDOT, bCR, bLF]

/-- `chunk[i]` on a Buffer; out-of-range reads never happen on the
guarded paths of the source, the default is irrelevant. -/
def byteAt (c : List Byte) (i : Nat) : Byte := c.getD i 0

/-- `chunk.subarray(a, b)` (start `a` inclusive, end `b` exclusive). -/
def slice (c : List Byte) (a b : Nat) : List Byte := (c.drop a).take (b - a)

def sumLen (xs : List (List Byte)) : Nat := (xs.map List.length).sum

def joinL (xs : List (List Byte)) : List Byte := xs.flatten

/-! ### SMTPParser state

Mirrors the private fields of `class SMTPParser`:
`_remainder` (command mode), `_lastBytes`, `_dataMode`, `_dataBytes`,
`_dataMaxBytes` (`none` stands for `Infinity`), `isClosed`.
The callback triple is not part of the state; outputs that the source
delivers through `onData` / `onDataEnd` / `onDataRemainder` are
returned in a `FeedOut` record instead. -/

structure ParserSt where
  cmdRemainder : List Byte
  lastBytes : List Byte
  dataMode : Bool
  dataBytes : Nat
  dataMaxBytes : Option Nat
  isClosed : Bool
deriving DecidableEq, Repr

def initialParserSt : ParserSt :=
  { cmdRemainder := [], lastBytes := [], dataMode := false,
    dataBytes := 0, dataMaxBytes := none, isClosed := false }

/-- Observable output of one parser call: the chunks passed to
`onData` in order, and, when `\r\n.\r\n` was found, the
`(byteLength, sizeExceeded, remainder)` triple delivered through
`onDataEnd` / `onDataRemainder` (the source skips the
`onDataRemainder` call when the remainder is empty; the triple keeps
the empty list in that case). -/
structure FeedOut where
  emitted : List (List Byte)
  ended : Option (Nat × Bool × List Byte)
deriving DecidableEq, Repr

def noOut : FeedOut := { emitted := [], ended := none }

/-- `SMTPParser._endDataMode(dataChunk, remainder)`. -/
def endDataMode (st : ParserSt) (dataChunk remainder : List Byte) :
    FeedOut × ParserSt :=
  let byteLength := st.dataBytes + dataChunk.length
  let sizeExceeded :=
    match st.dataMaxBytes with
    | none => false
    | some m => decide (m < byteLength)
  ({ emitted := if dataChunk.length = 0 then [] else [dataChunk],
     ended := some (byteLength, sizeExceeded, remainder) },
   { st with dataMode := false, dataBytes := 0, lastBytes := [] })

/-- `chunk[i] === 0x2e && chunk[i-1] === 0x0a` — a dot at the start of
a line (the scan only evaluates this for `i ≥ 2`). -/
def dotAtLineStart (c : List Byte) (i : Nat) : Bool :=
  byteAt c i == bDOT && byteAt c (i - 1) == bLF

/-- `Buffer.compare(chunk.subarray(i-2, i+3), END_SEQ) === 0`.  The
`take 5 ∘ drop (i-2)` equality also forces `i + 2 < c.length`. -/
def termAt (c : List Byte) (i : Nat) : Bool :=
  decide (2 ≤ i) && ((c.drop (i - 2)).take 5 == endSeq)

/-- `chunk[i+1] === 0x2e` — the dot-escape test. -/
def escAt (c : List Byte) (i : Nat) : Bool :=
  byteAt c (i + 1) == bDOT

/-- The body of the inner `for` loop of `_feedDataStream` at index
`i`: a dot at the start of a line that begins the terminator or a
dot-escape. -/
def evtAt (c : List Byte) (i : Nat) : Bool :=
  dotAtLineStart c i && (termAt c i || escAt c i)

/-- The inner `for` loop of `_feedDataStream`: starting at index `i`,
find the first index `< c.length - 2` holding a dot at the start of a
line that begins the terminator or a dot-escape.  The loop counter is
rendered as fuel; `c.length` fuel is always enough since every probe
advances `i` by one and the loop stops at `c.length - 2`. -/
def findEvent (c : List Byte) : Nat → Nat → Option Nat
  | 0, _ => none
  | fuel + 1, i =>
    if i + 2 < c.length then
      if evtAt c i then some i
      else findEvent c fuel (i + 1)
    else none

/-- Result of the labelled `scan` loop of `_feedDataStream`: either the
terminator was found (final body slice plus post-terminator bytes) or
the chunk was exhausted (trailing emit plus the ≤ 4 bytes buffered in
`_lastBytes`). -/
inductive ScanOut where
  | ended (finalChunk : List Byte) (remainder : List Byte)
  | pending (emitTail : List Byte) (keep : List Byte)
deriving DecidableEq, Repr

/-- The labelled `scan: while (true)` loop of `_feedDataStream`, with
the dot-escape `continue scan` rendered as recursion on `start`
(restarting the inner loop at `start + 2 = i + 3`, exactly as the
source).  Also performs the trailing keep-4-bytes logic of the
function's tail.  Each restart moves `start` past `i ≥ start + 2`, so
`c.length + 1` fuel always suffices. -/
def scanLoop (c : List Byte) : Nat → Nat → List (List Byte) × ScanOut
  | 0, _ => ([], ScanOut.pending [] [])
  | fuel + 1, start =>
    match findEvent c c.length (start + 2) with
    | some i =>
      if termAt c i then
        ([], ScanOut.ended (slice c start i) (c.drop (i + 3)))
      else
        let before := slice c start i
        let r := scanLoop c fuel (i + 1)
        ((if before.length = 0 then r.1 else before :: r.1), r.2)
    | none =>
      let remaining := c.drop start
      let keepLen := min 4 remaining.length
      let emitLen := remaining.length - keepLen
      ([], ScanOut.pending (remaining.take emitLen) (remaining.drop emitLen))

/-- `SMTPParser._feedDataStream(chunk)`.  The source increments
`_dataBytes` just before each `onData` call; the embedding adds the
same total once per call, which commutes with the order of the
increments. -/
def feedDataStream (st : ParserSt) (chunk0 : List Byte) :
    FeedOut × ParserSt :=
  let c := st.lastBytes ++ chunk0
  let st1 := { st with lastBytes := ([] : List Byte) }
  if st1.dataBytes == 0 && c.take 3 == [bDOT, bCR, bLF] then
    -- first data bytes are ".\r\n": empty body, rest is remainder
    endDataMode st1 [] (c.drop 3)
  else
    let start := if st1.dataBytes == 0 && c.take 2 == [bDOT, bDOT] then 1 else 0
    match scanLoop c (c.length + 1) start with
    | (emits, ScanOut.ended finalChunk rem) =>
      let st2 := { st1 with dataBytes := st1.dataBytes + sumLen emits }
      let r := endDataMode st2 finalChunk rem
      ({ emitted := emits ++ r.1.emitted, ended := r.1.ended }, r.2)
    | (emits, ScanOut.pending emitTail keep) =>
      let emits2 := emits ++ (if emitTail.length = 0 then [] else [emitTail])
      ({ emitted := emits2, ended := none },
       { st1 with dataBytes := st1.dataBytes + sumLen emits2,
                  lastBytes := keep })

/-- `SMTPParser.startDataMode(maxBytes, callbacks)` with the size limit
as a byte count; `(maxBytes && Number(maxBytes)) || Infinity` maps a
zero limit to `Infinity` (`none`). -/
def startDataMode (st : ParserSt) (maxBytes : Nat) : FeedOut × ParserSt :=
  let st1 := { st with
    dataMode := true,
    dataBytes := 0,
    dataMaxBytes := (if maxBytes = 0 then none else some maxBytes),
    lastBytes := ([] : List Byte) }
  if st1.cmdRemainder.length == 0 then (noOut, st1)
  else
    let buf := st1.cmdRemainder
    feedDataStream { st1 with cmdRemainder := ([] : List Byte) } buf

/-- `SMTPParser.feedDataMode(chunk)`. -/
def feedDataMode (st : ParserSt) (chunk : List Byte) : FeedOut × ParserSt :=
  if !st.dataMode || st.isClosed then (noOut, st)
  else feedDataStream st chunk

/-- The `while` loop of `feedCommandMode`: split a buffer at each LF,
stripping one CR directly before the LF when the line is nonempty
(`nl > pos && buf[nl-1] === 0x0d`); returns the complete lines and the
unterminated tail.  `acc` holds the bytes of the current line in
reverse. -/
def splitCmdGo (acc : List Byte) : List Byte → List (List Byte) × List Byte
  | [] => ([], acc.reverse)
  | b :: rest =>
    if b == bLF then
      let line := acc.reverse
      let line2 := if line.getLast? == some bCR then line.dropLast else line
      let r := splitCmdGo [] rest
      (line2 :: r.1, r.2)
    else splitCmdGo (b :: acc) rest

/-- `SMTPParser.feedCommandMode(chunk)` (lines kept as byte lists; the
source's UTF-8 decoding is a representation change only). -/
def feedCommandMode (st : ParserSt) (chunk : List Byte) :
    List (List Byte) × ParserSt :=
  if st.isClosed || st.dataMode then ([], st)
  else
    let buf := st.cmdRemainder ++ chunk
    let r := splitCmdGo [] buf
    (r.1, { st with cmdRemainder := r.2 })

/-- Feed a list of chunks through data mode in order, concatenating the
observable outputs (after the terminator the parser has left data mode
and further feeds are no-ops, as in the source). -/
def runDataFeeds : ParserSt → List (List Byte) → FeedOut × ParserSt
  | st, [] => (noOut, st)
  | st, ck :: rest =>
    let r1 := feedDataMode st ck
    let r2 := runDataFeeds r1.2 rest
    ({ emitted := r1.1.emitted ++ r2.1.emitted,
       ended := match r1.1.ended with
                | some e => some e
                | none => r2.1.ended },
     r2.2)

/-- A fresh parser that still holds `cmdRem` as unterminated
command-mode bytes (the state right before the DATA handler calls
`startDataMode`). -/
def sessionStartSt (cmdRem : List Byte) : ParserSt :=
  { initialParserSt with cmdRemainder := cmdRem }

/-- A complete data-mode session: `startDataMode` on a parser whose
command-mode remainder is `cmdRem`, then the chunks in order. -/
def runDataSession (cmdRem : List Byte) (maxBytes : Nat)
    (chunks : List (List Byte)) : FeedOut × ParserSt :=
  let r0 := startDataMode (sessionStartSt cmdRem) maxBytes
  let r1 := runDataFeeds r0.2 chunks
  ({ emitted := r0.1.emitted ++ r1.1.emitted,
     ended := match r0.1.ended with
              | some e => some e
              | none => r1.1.ended },
   r1.2)

/-! ### Specification-side dot-unstuffing

`specUnstuff` renders the specification's words for the DATA body
transformation: every `..` at the start of a line (including the very
first line) loses its escape dot; everything else is copied verbatim.
It is compared against the embedded `_feedDataStream` above. -/

def specUnstuff : Bool → List Byte → List Byte
  | _, [] => []
  | ls, b :: rest =>
    match ls && (b == bDOT) && (rest.head? == some bDOT) with
    | true => specUnstuff false rest
    | false => b :: specUnstuff (b == bLF) rest

/-- Number of occurrences of `pat` as a contiguous sublist of `s`
(counting one per starting position). -/
def countOccur (pat : List Byte) : List Byte → Nat
  | [] => if pat.isEmpty then 1 else 0
  | b :: rest =>
    (if pat.isPrefixOf (b :: rest) then 1 else 0) + countOccur pat rest

/-- The "line start" flag of `specUnstuff` when it reaches position
`i` of `c`: true at position 0, afterwards exactly when the previous
byte is LF. -/
def lsAt (c : List Byte) (i : Nat) : Bool :=
  if i = 0 then true else byteAt c (i - 1) == bLF

/-! ### Character-level helpers

Command lines reach the handlers as decoded strings; they are modelled
as `List Char`.  The helpers below render the JavaScript string
primitives the source uses (`trim`, `toUpperCase`/`toLowerCase` on the
ASCII range, `indexOf`, `split`). -/

def toL (s : String) : List Char := s.data

/-- Whitespace for `String.prototype.trim` / `\s` (the source only ever
meets the ASCII whitespace characters). -/
def isWsChar (ch : Char) : Bool :=
  ch == ' ' || ch == '\t' || ch == '\n' || ch == '\r' ||
  ch.toNat == 11 || ch.toNat == 12

def jsTrim (s : List Char) : List Char :=
  ((s.dropWhile isWsChar).reverse.dropWhile isWsChar).reverse

def upChar (ch : Char) : Char :=
  if 'a' ≤ ch && ch ≤ 'z' then Char.ofNat (ch.toNat - 32) else ch

def lowChar (ch : Char) : Char :=
  if 'A' ≤ ch && ch ≤ 'Z' then Char.ofNat (ch.toNat + 32) else ch

def toUpperA (s : List Char) : List Char := s.map upChar

def toLowerA (s : List Char) : List Char := s.map lowChar

/-- `s.indexOf(ch)` combined with the two slices around the found
index: `some (before, after)` where `s = before ++ ch :: after` and
`before` is free of `ch`; `none` when `ch` does not occur. -/
def splitAtChar (ch : Char) : List Char → Option (List Char × List Char)
  | [] => none
  | c :: rest =>
    if c == ch then some ([], rest)
    else (splitAtChar ch rest).map (fun p => (c :: p.1, p.2))

/-- Split at every occurrence of `ch`, `String.prototype.split`
semantics (`n` separators produce `n + 1` fields, empties kept). -/
def splitOnChar (ch : Char) : List Char → List (List Char)
  | [] => [[]]
  | c :: rest =>
    if c == ch then [] :: splitOnChar ch rest
    else
      match splitOnChar ch rest with
      | p :: ps => (c :: p) :: ps
      | [] => [[c]]

def splitWsSingle (cur : List Char) : List Char → List (List Char)
  | [] => [cur.reverse]
  | c :: rest =>
    if isWsChar c then cur.reverse :: splitWsSingle [] rest
    else splitWsSingle (c :: cur) rest

/-- `s.split(/\s+/)` for inputs with no leading or trailing whitespace
(the source always trims first): splitting at every whitespace char
and dropping empty fields collapses whitespace runs; the empty string
yields `[""]`. -/
def splitWs (s : List Char) : List (List Char) :=
  if s.isEmpty then [[]]
  else (splitWsSingle [] s).filter (fun t => !t.isEmpty)

def hexVal (ch : Char) : Option Nat :=
  if '0' ≤ ch && ch ≤ '9' then some (ch.toNat - 48)
  else if 'A' ≤ ch && ch ≤ 'F' then some (ch.toNat - 55)
  else if 'a' ≤ ch && ch ≤ 'f' then some (ch.toNat - 87)
  else none

def isDigits (s : List Char) : Bool :=
  !s.isEmpty && s.all (fun c => '0' ≤ c && c ≤ '9')

def digitsToNat (s : List Char) : Nat :=
  s.foldl (fun acc c => acc * 10 + (c.toNat - 48)) 0

def natToChars (n : Nat) : List Char := (Nat.repr n).data

def crlf : List Char := ['\r', '\n']

/-! ### `address-parser.ts` — `parseAddressCommand` -/

/-- `decodeXtext`: replace every `+HH` (two hex digits, either case)
with the character of that code; `+` not followed by two hex digits is
copied verbatim (the regex simply does not match there). -/
def decodeXtext : List Char → List Char
  | '+' :: h1 :: h2 :: rest =>
    match hexVal h1, hexVal h2 with
    | some a, some b => Char.ofNat (16 * a + b) :: decodeXtext rest
    | _, _ => '+' :: decodeXtext (h1 :: h2 :: rest)
  | c :: rest => c :: decodeXtext rest
  | [] => []

/-- An ESMTP parameter value: `true` for a bare `KEY` token, a string
for `KEY=VALUE`. -/
inductive AVal where
  | flag
  | str (v : List Char)
deriving DecidableEq, Repr

/-- `args[key] = value` on a plain object: overwrite keeps the original
insertion position, a fresh key appends. -/
def setArg (args : List (List Char × AVal)) (k : List Char) (v : AVal) :
    List (List Char × AVal) :=
  if args.any (fun p => p.1 == k) then
    args.map (fun p => if p.1 == k then (k, v) else p)
  else args ++ [(k, v)]

def getArg (args : List (List Char × AVal)) (k : List Char) : Option AVal :=
  (args.find? (fun p => p.1 == k)).map Prod.snd

/-- The parameter loop of `parseAddressCommand`: `KEY` or `KEY=VALUE`
tokens; keys uppercased, values xtext-decoded; blank keys skipped; the
accumulator stays `none` (`false` in the source) until the first
parameter is stored. -/
def parseParams : List (List Char) → Option (List (List Char × AVal)) →
    Option (List (List Char × AVal))
  | [], args => args
  | part :: rest, args =>
    let kv : List Char × AVal :=
      match splitAtChar '=' part with
      | none => (toUpperA part, AVal.flag)
      | some (k, v) => (toUpperA k, AVal.str (decodeXtext v))
    if (jsTrim kv.1).isEmpty then parseParams rest args
    else parseParams rest (some (setArg (args.getD []) kv.1 kv.2))

/-- `/^<[^<>]*>$/.test(rawAddress)`. -/
def angleWrapped (s : List Char) : Bool :=
  s.head? == some '<' && s.getLast? == some '>' && decide (2 ≤ s.length) &&
  ((s.drop 1).dropLast.all fun c => !(c == '<' || c == '>'))

def lastIdxGo (s : List Char) (i : Nat) (acc : Option Nat) : Option Nat :=
  match s with
  | [] => acc
  | c :: rest => lastIdxGo rest (i + 1) (if c == '@' then some i else acc)

/-- `address.lastIndexOf("@")` (`none` for the source's `-1`). -/
def lastIdxOfAt (s : List Char) : Option Nat := lastIdxGo s 0 none

/-- Two adjacent characters `a` then `b` occur somewhere
(`s.includes(ab)` for the two-character needles of the source). -/
def hasPair (a b : Char) : List Char → Bool
  | [] => false
  | [_] => false
  | x :: y :: rest => (x == a && y == b) || hasPair a b (y :: rest)

/-- `isIPv4` from `address-parser.ts`: four dot-separated fields, each
all digits with value ≤ 255. -/
def isIPv4 (s : List Char) : Bool :=
  let parts := splitOnChar '.' s
  parts.length == 4 &&
  parts.all (fun p => isDigits p && decide (digitsToNat p ≤ 255))

/-- `isIPv6` from `address-parser.ts`:
`/^[0-9a-fA-F:]+$/.test(s) && s.includes(":")`. -/
def isIPv6 (s : List Char) : Bool :=
  !s.isEmpty && s.all (fun c => (hexVal c).isSome || c == ':') &&
  s.any (fun c => c == ':')

/-- A character admitted by the domain regex
`/^[a-zA-Z0-9\u0080-￿.-]+$/` (codepoints above `U+FFFF` travel as
surrogate pairs in a JS string, each half in the admitted range, so
every codepoint ≥ `0x80` passes). -/
def domainChar (c : Char) : Bool :=
  ('a' ≤ c && c ≤ 'z') || ('A' ≤ c && c ≤ 'Z') || ('0' ≤ c && c ≤ '9') ||
  c == '.' || c == '-' || decide (128 ≤ c.toNat)

/-- The validation block of `parseAddressCommand` applied to a
non-empty address (everything between `@` position, length limits,
local-part dots, and the domain / IP-literal shape checks). -/
def addrValid (address : List Char) : Bool :=
  match lastIdxOfAt address with
  | none => false
  | some atIdx =>
    if atIdx == 0 || atIdx + 1 == address.length then false
    else
      let localPart := address.take atIdx
      let domain := address.drop (atIdx + 1)
      if 64 < localPart.length then false
      else if 254 < localPart.length + 1 + domain.length then false
      else if localPart.head? == some '.' || localPart.getLast? == some '.' ||
              hasPair '.' '.' localPart then false
      else if domain.head? == some '[' && domain.getLast? == some ']' then
        let inner := (domain.drop 1).dropLast
        if toUpperA (inner.take 5) == toL "IPV6:" then isIPv6 (inner.drop 5)
        else isIPv4 inner
      else
        !(domain.head? == some '.' || domain.getLast? == some '.' ||
          hasPair '.' '.' domain || hasPair '.' '-' domain ||
          hasPair '-' '.' domain || !(!domain.isEmpty && domain.all domainChar))

structure SMTPAddr where
  address : List Char
  args : Option (List (List Char × AVal))
deriving DecidableEq, Repr

/-- `parseAddressCommand(name, command)` from `address-parser.ts`
(`none` is the source's failure sentinel `false`). -/
def parseAddressCommand (name command : List Char) : Option SMTPAddr :=
  let normalizedName := toUpperA (jsTrim name)
  match splitAtChar ':' command with
  | none => none
  | some (before, after) =>
    if toUpperA (jsTrim before) != normalizedName then none
    else
      let parts := splitWs (jsTrim after)
      let rawAddress := parts.headD []
      let bracketOk := angleWrapped rawAddress
      let address := if bracketOk then (rawAddress.drop 1).dropLast else []
      let args := parseParams parts.tail none
      if !bracketOk then none
      else if address.isEmpty then some { address := address, args := args }
      else if addrValid address then some { address := address, args := args }
      else none

/-! ### Server options and connection context

`Opts` carries the `ServerInstance["options"]` fields the embedded
handlers read.  String-valued options that the source tests for JS
truthiness (`heloResponse`, `size`) keep the convention that the empty
string / `0` is the unset value. -/

structure Opts where
  lmtp : Bool
  hidePIPELINING : Bool
  hide8BITMIME : Bool
  hideSMTPUTF8 : Bool
  hideENHANCEDSTATUSCODES : Bool
  hideDSN : Bool
  hideSTARTTLS : Bool
  hideREQUIRETLS : Bool
  hideSize : Bool
  size : Nat
  authMethods : List (List Char)
  authOptional : Bool
  allowInsecureAuth : Bool
  disabledCommands : List (List Char)
  heloResponse : List Char
  useXClient : Bool
  useXForward : Bool
deriving DecidableEq, Repr

/-- Constructor defaults of `SMTPServer` (`smtp-server.ts`). -/
def defaultOpts : Opts :=
  { lmtp := false, hidePIPELINING := false, hide8BITMIME := false,
    hideSMTPUTF8 := false, hideENHANCEDSTATUSCODES := true,
    hideDSN := true, hideSTARTTLS := false, hideREQUIRETLS := true,
    hideSize := false, size := 0,
    authMethods := [toL "LOGIN", toL "PLAIN"],
    authOptional := false, allowInsecureAuth := false,
    disabledCommands := [], heloResponse := [],
    useXClient := false, useXForward := false }

def handlerNames : List (List Char) :=
  [toL "EHLO", toL "HELO", toL "STARTTLS", toL "AUTH", toL "MAIL",
   toL "RCPT", toL "DATA", toL "RSET", toL "NOOP", toL "QUIT",
   toL "VRFY", toL "HELP", toL "XCLIENT", toL "XFORWARD", toL "WIZ",
   toL "SHELL", toL "KILL"]

/-- `isSupported(ctx, command)`: not disabled and present in
`HANDLERS`. -/
def isSupported (opts : Opts) (cmd : List Char) : Bool :=
  !(opts.disabledCommands.contains cmd) && handlerNames.contains cmd

structure DsnEnvelope where
  ret : Option (List Char)
  envid : Option (List Char)
deriving DecidableEq, Repr

structure Envelope where
  mailFrom : Option SMTPAddr
  rcptTo : List SMTPAddr
  bodyType : List Char
  smtpUtf8 : Bool
  requireTLS : Bool
  dsn : Option DsnEnvelope
deriving DecidableEq, Repr

/-- The envelope `resetSession` installs: `mailFrom=false`, empty
recipient list, `7bit`, flags off, and a blank DSN record unless DSN is
hidden. -/
def freshEnvelope (opts : Opts) : Envelope :=
  { mailFrom := none, rcptTo := [], bodyType := toL "7bit",
    smtpUtf8 := false, requireTLS := false,
    dsn := if opts.hideDSN then none
           else some { ret := none, envid := none } }

structure Session where
  secure : Bool
  localAddress : List Char
  localPort : Nat
  remoteAddress : List Char
  remotePort : Nat
  clientHostname : List Char
  openingCommand : List Char
  hostNameAppearsAs : List Char
  transmissionType : List Char
  tlsOptions : Bool
  user : Option (List Char)
  transaction : Nat
  envelope : Envelope
deriving DecidableEq, Repr

structure Ctx where
  session : Session
  secure : Bool
  upgrading : Bool
  localAddress : List Char
  localPort : Nat
  remoteAddress : List Char
  remotePort : Nat
  clientHostname : List Char
  openingCommand : List Char
  hostNameAppearsAs : List Char
  tlsOptions : Bool
  xClientHasAddr : Bool
  unknownCmds : Nat
  unauthCmds : Nat
  transactionCounter : Nat
  name : List Char
deriving DecidableEq, Repr

/-- `computeTransmissionType` from `auth.ts` (mirrors
`smtp-connection._transmissionType()`). -/
def computeTransmissionType (opts : Opts) (ctx : Ctx) : List Char :=
  let t := if opts.lmtp then toL "LMTP" else toL "SMTP"
  let t := if ctx.openingCommand == toL "EHLO" ||
              ctx.openingCommand == toL "LHLO" then toL "E" ++ t else t
  let t := if ctx.secure then t ++ toL "S" else t
  if ctx.session.user.isSome then t ++ toL "A" else t

/-- `resetSession(ctx)` from `connection.ts`: copy the connection-level
identity into the session, recompute the transmission type, install a
fresh envelope and set `transaction` to `transactionCounter + 1`.  Note
that `session.user` is not touched. -/
def resetSession (opts : Opts) (ctx : Ctx) : Ctx :=
  { ctx with session := { ctx.session with
      localAddress := ctx.localAddress,
      localPort := ctx.localPort,
      remoteAddress := ctx.remoteAddress,
      remotePort := ctx.remotePort,
      clientHostname := ctx.clientHostname,
      openingCommand := ctx.openingCommand,
      hostNameAppearsAs := ctx.hostNameAppearsAs,
      transmissionType := computeTransmissionType opts ctx,
      tlsOptions := ctx.tlsOptions,
      envelope := freshEnvelope opts,
      transaction := ctx.transactionCounter + 1 } }

/-- The `open` callback of the `upgradeTLS` call in `HANDLERS.STARTTLS`
followed by the success branch of the `onSecure` hook: mark the
connection secure, leave the upgrade state, blank the asserted
hostname and the opening command, and run `resetSession`. -/
def starttlsSecured (opts : Opts) (ctx : Ctx) : Ctx :=
  let c1 := { ctx with
    secure := true,
    upgrading := false,
    session := { ctx.session with secure := true } }
  let c2 := { c1 with
    hostNameAppearsAs := ([] : List Char),
    openingCommand := ([] : List Char),
    session := { c1.session with
      hostNameAppearsAs := ([] : List Char),
      openingCommand := ([] : List Char) } }
  resetSession opts c2

/-! ### Reply builders (`getEnhancedCode`, `buildResponse`,
`buildMultiResponse`) -/

/-- The `context` argument of the reply builders:
absent (`undefined`), the explicit suppression value `false`, or a
command name / contextual tag string. -/
inductive RespContext where
  | undef
  | explicitFalse
  | tag (t : List Char)
deriving DecidableEq, Repr

/-- `ENHANCED_STATUS_CODES` (RFC 3463 table). -/
def enhancedStatusCode (code : Nat) : Option (List Char) :=
  match code with
  | 200 => some (toL "2.0.0")
  | 211 => some (toL "2.0.0")
  | 214 => some (toL "2.0.0")
  | 220 => some (toL "2.0.0")
  | 221 => some (toL "2.0.0")
  | 235 => some (toL "2.7.0")
  | 250 => some (toL "2.0.0")
  | 251 => some (toL "2.1.5")
  | 252 => some (toL "2.1.5")
  | 334 => some (toL "3.7.0")
  | 354 => some (toL "2.0.0")
  | 420 => some (toL "4.4.2")
  | 421 => some (toL "4.4.2")
  | 450 => some (toL "4.2.1")
  | 451 => some (toL "4.3.0")
  | 452 => some (toL "4.2.2")
  | 454 => some (toL "4.7.0")
  | 500 => some (toL "5.5.2")
  | 501 => some (toL "5.5.4")
  | 502 => some (toL "5.5.1")
  | 503 => some (toL "5.5.1")
  | 504 => some (toL "5.5.4")
  | 521 => some (toL "5.3.2")
  | 523 => some (toL "5.3.4")
  | 530 => some (toL "5.7.0")
  | 535 => some (toL "5.7.8")
  | 538 => some (toL "5.7.0")
  | 550 => some (toL "5.1.1")
  | 551 => some (toL "5.1.6")
  | 552 => some (toL "5.2.2")
  | 553 => some (toL "5.1.3")
  | 554 => some (toL "5.6.0")
  | 555 => some (toL "5.5.4")
  | 556 => some (toL "5.1.10")
  | 557 => some (toL "5.7.1")
  | 558 => some (toL "5.2.3")
  | _ => none

/-- The `CONTEXTUAL_STATUS_CODES` record, as the list of its
key/value pairs. -/
def contextualTable : List (List Char × List Char) :=
  [(toL "MAIL_FROM_OK", toL "2.1.0"),
   (toL "RCPT_TO_OK", toL "2.1.5"),
   (toL "DATA_OK", toL "2.6.0"),
   (toL "AUTH_SUCCESS", toL "2.7.0"),
   (toL "AUTH_REQUIRED", toL "5.7.0"),
   (toL "AUTH_INVALID", toL "5.7.8"),
   (toL "POLICY_VIOLATION", toL "5.7.1"),
   (toL "SPAM_REJECTED", toL "5.7.1"),
   (toL "MAILBOX_FULL", toL "4.2.2"),
   (toL "MAILBOX_NOT_FOUND", toL "5.1.1"),
   (toL "MAILBOX_SYNTAX_ERROR", toL "5.1.3"),
   (toL "SYSTEM_ERROR", toL "4.3.0"),
   (toL "SYSTEM_FULL", toL "4.3.1"),
   (toL "NETWORK_ERROR", toL "4.4.0"),
   (toL "CONNECTION_TIMEOUT", toL "4.4.2")]

/-- `CONTEXTUAL_STATUS_CODES[context]` — the record lookup. -/
def contextualStatusCode (t : List Char) : Option (List Char) :=
  (contextualTable.find? (fun p => p.1 == t)).map Prod.snd

def skippedEnhancedCommands : List (List Char) :=
  [toL "HELO", toL "EHLO", toL "LHLO"]

/-- `getEnhancedCode(ctx, code, context)`; `""` (here `[]`) means "no
enhanced status code in this reply". -/
def getEnhancedCode (hideESC : Bool) (code : Nat) (c : RespContext) :
    List Char :=
  if c == RespContext.explicitFalse || hideESC then []
  else if decide (300 ≤ code) && decide (code < 400) then []
  else if (match c with
           | RespContext.tag t => skippedEnhancedCommands.contains t
           | _ => false) then []
  else
    match (match c with
           | RespContext.tag t => contextualStatusCode t
           | _ => none) with
    | some s => s
    | none =>
      match enhancedStatusCode code with
      | some s => s
      | none =>
        if decide (200 ≤ code) && decide (code < 300) then toL "2.0.0"
        else if decide (400 ≤ code) && decide (code < 500) then toL "4.0.0"
        else if decide (500 ≤ code) then toL "5.0.0"
        else []

/-- `buildResponse(ctx, code, message, context)` (the returned wire
string; the `session.error` bookkeeping and the deferred close on 421
are side effects outside this model). -/
def buildResponse (hideESC : Bool) (code : Nat) (message : List Char)
    (c : RespContext) : List Char :=
  let enh := getEnhancedCode hideESC code c
  let codeStr := natToChars code
  let payload :=
    if !enh.isEmpty && !message.isEmpty then
      codeStr ++ [' '] ++ enh ++ [' '] ++ message
    else if !enh.isEmpty then codeStr ++ [' '] ++ enh
    else if !message.isEmpty then codeStr ++ [' '] ++ message
    else codeStr
  if code == 334 && payload == toL "334" then toL "334 " ++ crlf
  else payload ++ crlf

/-- `buildMultiResponse(ctx, code, lines, context)`. -/
def buildMultiResponse (hideESC : Bool) (code : Nat)
    (lines : List (List Char)) (c : RespContext) : List Char :=
  let enh := getEnhancedCode hideESC code c
  let n := lines.length
  let rendered := lines.enum.map (fun p =>
    let sep : Char := if p.1 + 1 < n then '-' else ' '
    let pfx := if !enh.isEmpty then natToChars code ++ [sep] ++ enh ++ [' ']
               else natToChars code ++ [sep]
    pfx ++ p.2)
  List.intercalate crlf rendered ++ crlf

/-! ### `HANDLERS.EHLO` -/

/-- Replace the first `%s` of the format string (the slice-based
substitution of the source). -/
def replaceFirstPct (repl : List Char) : List Char → List Char
  | '%' :: 's' :: rest => repl ++ rest
  | c :: rest => c :: replaceFirstPct repl rest
  | [] => []

/-- The HELO greeting line: the format string (default
`"%s Nice to meet you, %s"`) with the server name and the resolved
client hostname substituted in order. -/
def heloGreeting (opts : Opts) (ctx : Ctx) : List Char :=
  let heloFmt := if opts.heloResponse.isEmpty
                 then toL "%s Nice to meet you, %s"
                 else opts.heloResponse
  replaceFirstPct ctx.clientHostname (replaceFirstPct ctx.name heloFmt)

/-- The capability lines pushed by `HANDLERS.EHLO`, in source order. -/
def ehloFeatures (opts : Opts) (ctx : Ctx) : List (List Char) :=
  (if !opts.hidePIPELINING then [toL "PIPELINING"] else []) ++
  (if !opts.hide8BITMIME then [toL "8BITMIME"] else []) ++
  (if !opts.hideSMTPUTF8 then [toL "SMTPUTF8"] else []) ++
  (if !opts.hideENHANCEDSTATUSCODES then [toL "ENHANCEDSTATUSCODES"] else []) ++
  (if !opts.hideDSN then [toL "DSN"] else []) ++
  (if !opts.authMethods.isEmpty && isSupported opts (toL "AUTH") &&
      ctx.session.user.isNone
   then [toL "AUTH " ++ List.intercalate [' '] opts.authMethods] else []) ++
  (if !ctx.secure && isSupported opts (toL "STARTTLS") && !opts.hideSTARTTLS
   then [toL "STARTTLS"] else []) ++
  (if ctx.secure && !opts.hideREQUIRETLS then [toL "REQUIRETLS"] else []) ++
  (if opts.size != 0
   then [toL "SIZE" ++ (if opts.hideSize then [] else ' ' :: natToChars opts.size)]
   else []) ++
  (if !ctx.xClientHasAddr && opts.useXClient && isSupported opts (toL "XCLIENT")
   then [toL "XCLIENT NAME ADDR PORT PROTO HELO LOGIN"] else []) ++
  (if !ctx.xClientHasAddr && opts.useXForward && isSupported opts (toL "XFORWARD")
   then [toL "XFORWARD NAME ADDR PORT PROTO HELO IDENT SOURCE"] else [])

inductive EhloOut where
  | syntax501 (reply : List Char)
  | ok (ctx : Ctx) (reply : List Char)
deriving DecidableEq, Repr

/-- `HANDLERS.EHLO(ctx, line)` (also serves LHLO, which the dispatcher
maps to this handler in LMTP mode): no space in the trimmed line means
no argument — reply 501; otherwise everything after the first space,
trimmed and lowercased, becomes `hostNameAppearsAs`, the session is
reset and the multi-line 250 capability reply is produced. -/
def ehloHandler (opts : Opts) (ctx : Ctx) (line : List Char) : EhloOut :=
  let t := jsTrim line
  match splitAtChar ' ' t with
  | none =>
    EhloOut.syntax501 (buildResponse opts.hideENHANCEDSTATUSCODES 501
      (toL "Error: syntax: " ++ (if opts.lmtp then toL "LHLO" else toL "EHLO") ++
       toL " hostname")
      RespContext.undef)
  | some (_, after) =>
    let hn := toLowerA (jsTrim after)
    let ctx1 := { ctx with
      hostNameAppearsAs := hn,
      session := { ctx.session with hostNameAppearsAs := hn } }
    let features := ehloFeatures opts ctx1
    let ctx2 := resetSession opts ctx1
    EhloOut.ok ctx2
      (buildMultiResponse opts.hideENHANCEDSTATUSCODES 250
        (heloGreeting opts ctx1 :: features) RespContext.explicitFalse)

/-! ### `HANDLERS.MAIL` (up to the `onMailFrom` callback) -/

/-- JS truthiness of an ESMTP parameter value. -/
def avTruthy : AVal → Bool
  | AVal.flag => true
  | AVal.str v => !v.isEmpty

/-- `(value as string).toUpperCase()` (the `flag` arm never matters on
the paths the source exercises with string casts). -/
def avUpper : AVal → List Char
  | AVal.flag => toL "TRUE"
  | AVal.str v => toUpperA v

/-- `Number(value)` restricted to the decimal strings the SIZE check
meets: all-digit strings parse, the empty string is 0, `true` is 1 and
anything else is NaN (`none`, which makes every `>` comparison
false). -/
def jsNumberOfArg : AVal → Option Nat
  | AVal.flag => some 1
  | AVal.str v =>
    if v.isEmpty then some 0
    else if isDigits v then some (digitsToNat v)
    else none

/-- `validateMailParams(ctx, parsed)`: `some (code, message)` is the
error reply, `none` lets the handler continue. -/
def validateMailParams (opts : Opts)
    (argsOpt : Option (List (List Char × AVal))) : Option (Nat × List Char) :=
  match argsOpt with
  | none => none
  | some args =>
    if (match getArg args (toL "BODY") with
        | some v => avTruthy v &&
            (avUpper v != toL "7BIT" && avUpper v != toL "8BITMIME")
        | none => false)
    then some (501, toL "Error: Unknown BODY parameter value")
    else if getArg args (toL "SMTPUTF8") == some AVal.flag && opts.hideSMTPUTF8
    then some (555, toL "Error: SMTPUTF8 is not supported")
    else if (match getArg args (toL "REQUIRETLS") with
             | some v => v != AVal.flag
             | none => false)
    then some (501,
      toL "Invalid REQUIRETLS parameter. This flag does not accept a value")
    else if !opts.hideDSN && (match getArg args (toL "RET") with
             | some v => avTruthy v &&
                 (avUpper v != toL "FULL" && avUpper v != toL "HDRS")
             | none => false)
    then some (501, toL "Invalid RET parameter value. Must be FULL or HDRS")
    else none

/-- Outcome of `HANDLERS.MAIL` up to (and not including) the
`onMailFrom` callback: the error replies, or `proceed parsed`, meaning
`applyMailParams` runs and `onMailFrom` is invoked with `parsed` (only
that continuation can record the sender in the envelope). -/
inductive MailOut where
  | badSyntax501
  | nested503
  | exceeded552
  | paramErr (code : Nat) (message : List Char)
  | proceed (parsed : SMTPAddr)
deriving DecidableEq, Repr

/-- `HANDLERS.MAIL(ctx, line)` decision structure, parameterised by the
current `envelope.mailFrom`. -/
def mailHandler (opts : Opts) (envMailFrom : Option SMTPAddr)
    (line : List Char) : MailOut :=
  match parseAddressCommand (toL "MAIL FROM") line with
  | none => MailOut.badSyntax501
  | some parsed =>
    if envMailFrom.isSome then MailOut.nested503
    else if !opts.hideSize && opts.size != 0 &&
        (match parsed.args with
         | some a =>
           (match getArg a (toL "SIZE") with
            | some v => avTruthy v &&
                (match jsNumberOfArg v with
                 | some n => decide (opts.size < n)
                 | none => false)
            | none => false)
         | none => false)
    then MailOut.exceeded552
    else
      match validateMailParams opts parsed.args with
      | some e => MailOut.paramErr e.1 e.2
      | none => MailOut.proceed parsed

/-! ### `auth.ts` — AUTH PLAIN -/

/-- Base64 alphabet value of a character. -/
def b64val (ch : Char) : Option Nat :=
  if 'A' ≤ ch && ch ≤ 'Z' then some (ch.toNat - 65)
  else if 'a' ≤ ch && ch ≤ 'z' then some (ch.toNat - 71)
  else if '0' ≤ ch && ch ≤ '9' then some (ch.toNat + 4)
  else if ch == '+' then some 62
  else if ch == '/' then some 63
  else none

/-- Base64 sextets to bytes; a trailing group of 2 or 3 sextets yields
1 or 2 bytes, a lone leftover sextet is dropped (Node's lenient
decoder). -/
def b64decodeVals : List Nat → List Byte
  | a :: b :: c :: d :: rest =>
    (a * 4 + b / 16) :: ((b % 16) * 16 + c / 4) :: ((c % 4) * 64 + d) ::
    b64decodeVals rest
  | [a, b] => [a * 4 + b / 16]
  | [a, b, c] => [a * 4 + b / 16, (b % 16) * 16 + c / 4]
  | _ => []

/-- `decodeB64(s) = Buffer.from(s.trim(), "base64")` as raw bytes
(Node ignores characters outside the alphabet, including `=`; the
subsequent NUL split commutes with the UTF-8 `toString`, so the byte
view is kept). -/
def decodeB64 (s : List Char) : List Byte :=
  b64decodeVals ((jsTrim s).filterMap b64val)

/-- `decoded.split("\x00")`. -/
def splitNul : List Byte → List (List Byte)
  | [] => [[]]
  | b :: rest =>
    if b == 0 then [] :: splitNul rest
    else
      match splitNul rest with
      | p :: ps => (b :: p) :: ps
      | [] => [[b]]

/-- Outcome of `plainToken`: the 501 abort, the 500 malformed-userdata
reply, or the `onAuth` invocation with
`{method: "PLAIN", username, password}`. -/
inductive PlainOut where
  | abort501
  | invalid500
  | callOnAuth (username password : List Byte)
deriving DecidableEq, Repr

/-- `plainToken(ctx, canAbort, token, done)` up to the `onAuth`
call. -/
def plainToken (canAbort : Bool) (token : List Char) : PlainOut :=
  let token := jsTrim token
  if canAbort && token == toL "*" then PlainOut.abort501
  else
    let data := splitNul (decodeB64 token)
    if data.length != 3 then PlainOut.invalid500
    else
      let username := if !(data.getD 1 []).isEmpty then data.getD 1 []
                      else data.getD 0 []
      PlainOut.callOnAuth username (data.getD 2 [])

/-- Outcome of `SASL_PLAIN`: 501 syntax error for more than one
argument, the `334 ` challenge (which installs
`nextHandler = plainToken (canAbort := true)`), or the immediate
processing of an inline token with `canAbort := false`. -/
inductive SaslPlainOut where
  | syntaxErr501
  | challenge334
  | immediate (r : PlainOut)
deriving DecidableEq, Repr

/-- `SASL_PLAIN(ctx, args, done)`. -/
def saslPlain (args : List (List Char)) : SaslPlainOut :=
  if 1 < args.length then SaslPlainOut.syntaxErr501
  else
    match args with
    | [] => SaslPlainOut.challenge334
    | t :: _ => SaslPlainOut.immediate (plainToken false t)

/-! ### `HANDLERS.DATA` — the completion continuation -/

/-- One element of an LMTP per-recipient response array: an `Error`
instance or an object carrying `responseCode` (both rejected entries),
a plain string, or any other accepted value. -/
inductive DataArrEntry where
  | errLike (responseCode : Option Nat) (message : List Char)
  | plainStr (s : List Char)
  | plainOther
deriving DecidableEq, Repr

/-- The `(err, message)` pair the embedding passes to the `onData`
completion callback. -/
inductive DataResult where
  | err (responseCode : Option Nat) (message : List Char)
  | msgArray (entries : List DataArrEntry)
  | msgString (s : List Char)
  | msgOther
deriving DecidableEq, Repr

/-- The completion callback of `HANDLERS.DATA` (`connection.ts`
867-985): emit the reply (or per-recipient replies), then increment
`transactionCounter`, zero `unknownCmds` and run `resetSession` — on
every branch, error or success. -/
def dataCallbackDone (opts : Opts) (ctx : Ctx) (res : DataResult) :
    List (List Char) × Ctx :=
  let rcptCount := ctx.session.envelope.rcptTo.length
  let hideESC := opts.hideENHANCEDSTATUSCODES
  let replies : List (List Char) :=
    match res with
    | DataResult.err rc m =>
      if opts.lmtp then
        List.replicate rcptCount (buildResponse hideESC (rc.getD 450) m RespContext.undef)
      else [buildResponse hideESC (rc.getD 450) m RespContext.undef]
    | DataResult.msgArray entries =>
      entries.map (fun e =>
        match e with
        | DataArrEntry.errLike rc m =>
          buildResponse hideESC (rc.getD 450) m RespContext.undef
        | DataArrEntry.plainStr s =>
          buildResponse hideESC 250 s (RespContext.tag (toL "DATA_OK"))
        | DataArrEntry.plainOther =>
          buildResponse hideESC 250 (toL "OK: message accepted")
            (RespContext.tag (toL "DATA_OK")))
    | DataResult.msgString s =>
      if opts.lmtp then
        List.replicate rcptCount
          (buildResponse hideESC 250 s (RespContext.tag (toL "DATA_OK")))
      else [buildResponse hideESC 250 s (RespContext.tag (toL "DATA_OK"))]
    | DataResult.msgOther =>
      if opts.lmtp then
        List.replicate rcptCount
          (buildResponse hideESC 250 (toL "OK: message accepted")
            (RespContext.tag (toL "DATA_OK")))
      else [if hideESC then toL "250 OK: message queued" ++ crlf
            else toL "250 2.6.0 OK: message queued" ++ crlf]
  let ctx1 := { ctx with
    transactionCounter := ctx.transactionCounter + 1,
    unknownCmds := 0 }
  (replies, resetSession opts ctx1)

/-! ### Auxiliary definitions used by the statements below -/

/-- The parser state right after `startDataMode(maxBytes, …)` on a
fresh parser (no pending command-mode remainder). -/
def dataModeStart (maxBytes : Nat) : ParserSt :=
  (startDataMode initialParserSt maxBytes).2

/-- Whether the specification's unstuffing deletes the byte at
position `k` when processing the region that ends at `e`: a dot at the
start of a line followed by another dot still inside the region. -/
def specDropAt (c : List Byte) (e k : Nat) : Prop :=
  lsAt c k = true ∧ byteAt c k = bDOT ∧ k + 1 < e ∧ byteAt c (k + 1) = bDOT

/-- `sizeExceeded` as `_endDataMode` computes it from the stored
maximum. -/
def maxExceeded (m : Option Nat) (byteLength : Nat) : Bool :=
  match m with
  | none => false
  | some mv => decide (mv < byteLength)

/-- The whitespace-separated tokens after the command word — the
"arguments" of a command line in the sense of the specification. -/
def argTokens (line : List Char) : List (List Char) :=
  (splitWs (jsTrim line)).tail

def ehloIsSyntaxErr : EhloOut → Bool
  | EhloOut.syntax501 _ => true
  | EhloOut.ok _ _ => false

def ehloHostname : EhloOut → Option (List Char)
  | EhloOut.syntax501 _ => none
  | EhloOut.ok c _ => some c.hostNameAppearsAs

def ehloSessionHostname : EhloOut → Option (List Char)
  | EhloOut.syntax501 _ => none
  | EhloOut.ok c _ => some c.session.hostNameAppearsAs

def ehloEnvelope : EhloOut → Option Envelope
  | EhloOut.syntax501 _ => none
  | EhloOut.ok c _ => some c.session.envelope

def ehloReplyOf : EhloOut → List Char
  | EhloOut.syntax501 r => r
  | EhloOut.ok _ r => r

/-! ### Sample contexts for concrete evaluations -/

def sampleEnvelope : Envelope :=
  { mailFrom := some { address := toL "a@b.cd", args := none },
    rcptTo := [{ address := toL "c@d.ee", args := none }],
    bodyType := toL "7bit", smtpUtf8 := false, requireTLS := false,
    dsn := none }

def sampleSession : Session :=
  { secure := false, localAddress := toL "127.0.0.1", localPort := 25,
    remoteAddress := toL "10.0.0.9", remotePort := 50000,
    clientHostname := toL "[10.0.0.9]",
    openingCommand := toL "EHLO",
    hostNameAppearsAs := toL "client.example",
    transmissionType := toL "ESMTPA", tlsOptions := false,
    user := some (toL "alice"), transaction := 1,
    envelope := sampleEnvelope }

def sampleCtx : Ctx :=
  { session := sampleSession, secure := false, upgrading := false,
    localAddress := toL "127.0.0.1", localPort := 25,
    remoteAddress := toL "10.0.0.9", remotePort := 50000,
    clientHostname := toL "[10.0.0.9]",
    openingCommand := toL "EHLO",
    hostNameAppearsAs := toL "client.example",
    tlsOptions := false, xClientHasAddr := false,
    unknownCmds := 3, unauthCmds := 2, transactionCounter := 0,
    name := toL "localhost" }

/-! ## Theorems -/

/-- Claim C1 (code bug demonstration).  The claim says that after a
successful STARTTLS upgrade no prior protocol state persists,
including the authenticated user.  The embedded upgrade path does
blank `openingCommand` and `hostNameAppearsAs` (connection and
session), resets the envelope — but `resetSession` never clears
`session.user`, so a user authenticated before STARTTLS (possible with
`allowInsecureAuth`) survives the upgrade, contradicting the source's
own comment "RFC: server MUST reset all state after STARTTLS". -/
theorem starttls_keeps_authenticated_user :
    (starttlsSecured defaultOpts { sampleCtx with upgrading := true }).openingCommand = [] ∧
    (starttlsSecured defaultOpts { sampleCtx with upgrading := true }).hostNameAppearsAs = [] ∧
    (starttlsSecured defaultOpts { sampleCtx with upgrading := true }).session.openingCommand = [] ∧
    (starttlsSecured defaultOpts { sampleCtx with upgrading := true }).session.hostNameAppearsAs = [] ∧
    (starttlsSecured defaultOpts { sampleCtx with upgrading := true }).session.envelope = freshEnvelope defaultOpts ∧
    (starttlsSecured defaultOpts { sampleCtx with upgrading := true }).session.secure = true ∧
    (starttlsSecured defaultOpts { sampleCtx with upgrading := true }).session.user = some (toL "alice") := by
  decide

/-- Claim C3 (code bug demonstration).  Feeding the data stream
`"...\r\nEND\r\n.\r\n"` split as `".."` then `".\r\nEND\r\n.\r\n"`
yields the body `".\r\nEND\r\n"` (8 bytes): the `_dataBytes === 0`
first-byte escape test fires on both chunks and two leading dots are
dropped.  The same bytes in a single chunk yield `"..\r\nEND\r\n"`
(9 bytes, one dot dropped), so output is not invariant under
fragmentation, contradicting the stated round-trip property (and the
purpose of the `_lastBytes` carry). -/
theorem fragmentation_changes_output :
    joinL (runDataSession [] 0
        [[46, 46], [46, 13, 10, 69, 78, 68, 13, 10, 46, 13, 10]]).1.emitted =
      [46, 13, 10, 69, 78, 68, 13, 10] ∧
    (runDataSession [] 0
        [[46, 46], [46, 13, 10, 69, 78, 68, 13, 10, 46, 13, 10]]).1.ended =
      some (8, false, []) ∧
    joinL (runDataSession [] 0
        [[46, 46, 46, 13, 10, 69, 78, 68, 13, 10, 46, 13, 10]]).1.emitted =
      [46, 46, 13, 10, 69, 78, 68, 13, 10] ∧
    (runDataSession [] 0
        [[46, 46, 46, 13, 10, 69, 78, 68, 13, 10, 46, 13, 10]]).1.ended =
      some (9, false, []) := by
  decide

/-- Claim C2, counterexample to the claim as stated.  The byte string
`"\n..x\r\n.\r\n"` contains a single `\r\n.\r\n`, does not begin with
`.\r\n`, and has a `..` at the start of its second line (offset 1),
which the claim says is collapsed to `.`.  The scan of
`_feedDataStream` starts at index `start + 2 = 2` and never examines
the dot at index 1, so the escape survives: the delivered body is
`"\n..x\r\n"`, not the claimed `"\n.x\r\n"`. -/
theorem dataStream_missed_escape_at_offset_one :
    countOccur endSeq ([10, 46, 46, 120] ++ endSeq ++ []) = 1 ∧
    ([10, 46, 46, 120] ++ endSeq ++ ([] : List Byte)).take 3 ≠ [bDOT, bCR, bLF] ∧
    joinL (feedDataMode (dataModeStart 0)
        ([10, 46, 46, 120] ++ endSeq ++ [])).1.emitted = [10, 46, 46, 120, 13, 10] ∧
    specUnstuff true ([10, 46, 46, 120] ++ [bCR, bLF]) = [10, 46, 120, 13, 10] ∧
    joinL (feedDataMode (dataModeStart 0)
        ([10, 46, 46, 120] ++ endSeq ++ [])).1.emitted ≠
      specUnstuff true ([10, 46, 46, 120] ++ [bCR, bLF]) := by
  decide

/-- Claim C5, counterexample to the claim as stated.  `EHLO foo bar`
carries two arguments after the command word, so the claim requires a
501 reply; the handler only rejects the no-argument case and here
accepts, recording `"foo bar"` (the whole tail) as
`hostNameAppearsAs`. -/
theorem ehlo_accepts_two_arguments :
    (argTokens (toL "EHLO foo bar")).length = 2 ∧
    ehloIsSyntaxErr (ehloHandler defaultOpts sampleCtx (toL "EHLO foo bar")) = false ∧
    ehloHostname (ehloHandler defaultOpts sampleCtx (toL "EHLO foo bar")) =
      some (toL "foo bar") := by
  decide

/-- Claim C6, counterexample to the claim as stated.  The 220 greeting
(`connectionReady`, `connection.ts` 252) is emitted through
`buildResponse(ctx, 220, …, false)`: `hideENHANCEDSTATUSCODES` is
false, 220 is not a 3xx code and no EHLO-family command is being
answered, yet the explicit `false` context suppresses the enhanced
code (the table entry `2.0.0` for 220 exists but does not appear). -/
theorem greeting_suppresses_enhanced_code :
    getEnhancedCode false 220 RespContext.explicitFalse = [] ∧
    buildResponse false 220 (toL "localhost ESMTP") RespContext.explicitFalse =
      toL "220 localhost ESMTP" ++ crlf ∧
    enhancedStatusCode 220 = some (toL "2.0.0") ∧
    ¬(300 ≤ 220 ∧ 220 < 400) := by
  decide

/-- Claim C7, counterexample to the claim as stated.  With
`size := 10` but `hideSize := true`, a MAIL command whose SIZE
parameter (100) exceeds the limit is not rejected: the SIZE check is
guarded by `!ctx.server.options.hideSize`, so the handler proceeds to
invoke `onMailFrom`. -/
theorem size_check_skipped_when_hidden :
    mailHandler { defaultOpts with size := 10, hideSize := true } none
        (toL "MAIL FROM:<a@b.cd> SIZE=100") =
      MailOut.proceed { address := toL "a@b.cd",
                        args := some [(toL "SIZE", AVal.str (toL "100"))] } ∧
    (10 : Nat) < digitsToNat (toL "100") := by
  decide

/-- Claim C10: whatever the embedding passes to the DATA completion
callback — an error or any accepted message shape — the connection
increments `transactionCounter` by exactly one, zeroes the
unknown-command counter and resets the envelope; under the standing
invariant `session.transaction = transactionCounter + 1` the session
transaction number therefore increases by one even for a rejected
message. -/
theorem data_completion_resets (opts : Opts) (ctx : Ctx) (res : DataResult) :
    (dataCallbackDone opts ctx res).2.transactionCounter = ctx.transactionCounter + 1 ∧
    (dataCallbackDone opts ctx res).2.unknownCmds = 0 ∧
    (dataCallbackDone opts ctx res).2.session.envelope = freshEnvelope opts ∧
    (dataCallbackDone opts ctx res).2.session.transaction = ctx.transactionCounter + 2 ∧
    (ctx.session.transaction = ctx.transactionCounter + 1 →
      (dataCallbackDone opts ctx res).2.session.transaction =
        ctx.session.transaction + 1) := by
  refine ⟨rfl, rfl, rfl, rfl, fun h => ?_⟩
  have h2 : (dataCallbackDone opts ctx res).2.session.transaction =
      ctx.transactionCounter + 2 := rfl
  omega

theorem data_completion_resets_witness :
    (dataCallbackDone defaultOpts sampleCtx
        (DataResult.err (some 554) (toL "rejected"))).2.session.transaction =
      sampleCtx.session.transaction + 1 :=
  (data_completion_resets defaultOpts sampleCtx
    (DataResult.err (some 554) (toL "rejected"))).2.2.2.2 (by decide)

/-- Claim C9: an AUTH PLAIN token — inline or solicited by the `334 `
challenge (the challenge path installs `plainToken` with
`canAbort = true`) — is trimmed, base64-decoded and split on NUL; when
that yields exactly `[authzid, authcid, password]`, `onAuth` is called
with method PLAIN, the username is `authcid` when non-empty and
`authzid` otherwise, and the password part; a solicited `*` aborts
with 501 and no `onAuth` call. -/
theorem auth_plain_credentials :
    (∀ (canAbort : Bool) (token : List Char) (z c p : List Byte),
        ¬(canAbort = true ∧ jsTrim token = toL "*") →
        splitNul (decodeB64 (jsTrim token)) = [z, c, p] →
        plainToken canAbort token =
          PlainOut.callOnAuth (if c.isEmpty then z else c) p) ∧
    (∀ token : List Char, jsTrim token = toL "*" →
        plainToken true token = PlainOut.abort501) ∧
    (∀ t : List Char, saslPlain [t] = SaslPlainOut.immediate (plainToken false t)) ∧
    saslPlain [] = SaslPlainOut.challenge334 := by
  refine ⟨?_, ?_, fun t => rfl, rfl⟩
  · intro canAbort token z c p habort hsplit
    have hguard : (canAbort && (jsTrim token == toL "*")) = false := by
      cases canAbort with
      | false => rfl
      | true =>
        simp only [Bool.true_and]
        by_contra hne
        exact habort ⟨rfl, by simpa using hne⟩
    unfold plainToken
    dsimp only
    rw [hguard, hsplit]
    cases c with
    | nil => rfl
    | cons x xs => rfl
  · intro token htok
    unfold plainToken
    dsimp only
    rw [htok]
    rfl

theorem auth_plain_credentials_witness :
    plainToken false (toL "AHVzZXIAcGFzcw==") =
      PlainOut.callOnAuth [117, 115, 101, 114] [112, 97, 115, 115] :=
  auth_plain_credentials.1 false (toL "AHVzZXIAcGFzcw==")
    [] [117, 115, 101, 114] [112, 97, 115, 115]
    (by decide) (by decide)

/-- Claim C5, amended: the EHLO (and, in LMTP mode, LHLO) handler
replies 501 exactly when the trimmed line contains no space character
— i.e. it rejects only the zero-argument case; whenever a space is
present, the whole text after the first space (trimmed, lowercased,
possibly several whitespace-separated words) is recorded as
`hostNameAppearsAs` (connection and session), the session is reset,
and the multi-line 250 capability reply is sent. -/
theorem ehlo_requires_at_least_one_argument (opts : Opts) (ctx : Ctx)
    (line : List Char) :
    (ehloIsSyntaxErr (ehloHandler opts ctx line) = true ↔
      splitAtChar ' ' (jsTrim line) = none) ∧
    (∀ pre after, splitAtChar ' ' (jsTrim line) = some (pre, after) →
      ehloHostname (ehloHandler opts ctx line) = some (toLowerA (jsTrim after)) ∧
      ehloSessionHostname (ehloHandler opts ctx line) =
        some (toLowerA (jsTrim after)) ∧
      ehloEnvelope (ehloHandler opts ctx line) = some (freshEnvelope opts) ∧
      ehloReplyOf (ehloHandler opts ctx line) =
        buildMultiResponse opts.hideENHANCEDSTATUSCODES 250
          (heloGreeting opts ctx :: ehloFeatures opts ctx)
          RespContext.explicitFalse) := by
  constructor
  · cases hsp : splitAtChar ' ' (jsTrim line) with
    | none => simp [ehloHandler, hsp, ehloIsSyntaxErr]
    | some pr => simp [ehloHandler, hsp, ehloIsSyntaxErr]
  · intro pre after hsp
    refine ⟨?_, ?_, ?_, ?_⟩
    all_goals simp only [ehloHandler, hsp, ehloHostname, ehloSessionHostname,
      ehloEnvelope, ehloReplyOf, resetSession]
    all_goals rfl

theorem ehlo_requires_at_least_one_argument_witness :
    ehloHostname (ehloHandler defaultOpts sampleCtx (toL "EHLO Client.Example")) =
      some (toL "client.example") :=
  (((ehlo_requires_at_least_one_argument defaultOpts sampleCtx
      (toL "EHLO Client.Example")).2 (toL "EHLO") (toL "Client.Example")
      (by decide))).1

/-- Claim C7, amended: a MAIL command with a parseable sender, no
transaction in progress, and a truthy numeric `SIZE=` parameter
exceeding the configured nonzero limit is rejected with 552 (no
`onMailFrom` call, no envelope change) — provided the SIZE capability
is not hidden; with `hideSize` set, the check is skipped entirely. -/
theorem mail_size_exceeded_552 (opts : Opts) (line : List Char)
    (parsed : SMTPAddr) (a : List (List Char × AVal)) (v : List Char) (n : Nat) :
    parseAddressCommand (toL "MAIL FROM") line = some parsed →
    parsed.args = some a →
    getArg a (toL "SIZE") = some (AVal.str v) →
    isDigits v = true →
    digitsToNat v = n →
    opts.size ≠ 0 →
    opts.size < n →
    opts.hideSize = false →
    mailHandler opts none line = MailOut.exceeded552 := by
  intro hparse hargs hsize hdig hn hsz hlt hhide
  unfold mailHandler
  rw [hparse]
  have hv : v.isEmpty = false := by
    cases v with
    | nil => simp [isDigits] at hdig
    | cons x xs => rfl
  simp [hargs, hsize, hhide, hsz, avTruthy, jsNumberOfArg, hv, hdig, hn, hlt]

theorem mail_size_exceeded_552_witness :
    mailHandler { defaultOpts with size := 10 } none
        (toL "MAIL FROM:<a@b.cd> SIZE=100") = MailOut.exceeded552 :=
  mail_size_exceeded_552 { defaultOpts with size := 10 }
    (toL "MAIL FROM:<a@b.cd> SIZE=100")
    { address := toL "a@b.cd", args := some [(toL "SIZE", AVal.str (toL "100"))] }
    [(toL "SIZE", AVal.str (toL "100"))] (toL "100") 100
    (by decide) (by decide) (by decide) (by decide) (by decide)
    (by decide) (by decide) (by decide)

/-- Claim C8: (1) when the prefix matches and the first token after
the colon is exactly `<>`, parsing succeeds with the empty address and
the remaining tokens parsed as ESMTP parameters — none of the address
validation rules are consulted; (2) every successful parse with a
non-empty address satisfies the validation predicate, i.e. any
violation of the validation rules yields the failure sentinel. -/
theorem null_path_and_validation :
    (∀ (name cmd before after : List Char) (rest : List (List Char)),
        splitAtChar ':' cmd = some (before, after) →
        toUpperA (jsTrim before) = toUpperA (jsTrim name) →
        splitWs (jsTrim after) = toL "<>" :: rest →
        parseAddressCommand name cmd =
          some { address := [], args := parseParams rest none }) ∧
    (∀ (name cmd : List Char) (r : SMTPAddr),
        parseAddressCommand name cmd = some r → r.address ≠ [] →
        addrValid r.address = true) := by
  constructor
  · intro name cmd before after rest h1 h2 h3
    unfold parseAddressCommand
    rw [h1]
    dsimp only
    rw [h2, h3]
    simp only [bne_self_eq_false, Bool.false_eq_true, if_false]
    rfl
  · intro name cmd r h hne
    unfold parseAddressCommand at h
    cases hsp : splitAtChar ':' cmd with
    | none => rw [hsp] at h; cases h
    | some pr =>
      rw [hsp] at h
      dsimp only at h
      split at h
      · cases h
      · split at h
        · cases h
        · rename_i hbrNe
          have hbr : angleWrapped ((splitWs (jsTrim pr.2)).headD []) = true := by
            simpa using hbrNe
          simp only [hbr, eq_self_iff_true, if_true] at h
          split at h
          · rename_i hempty
            injection h with h4
            rw [← h4] at hne
            simp only [List.isEmpty_iff] at hempty
            exact absurd hempty hne
          · split at h
            · rename_i hvalid
              injection h with h4
              rw [← h4]
              exact hvalid
            · cases h

theorem null_path_and_validation_witness :
    parseAddressCommand (toL "MAIL FROM") (toL "MAIL FROM:<> SIZE=5") =
      some { address := [], args := parseParams [toL "SIZE=5"] none } :=
  null_path_and_validation.1 (toL "MAIL FROM") (toL "MAIL FROM:<> SIZE=5")
    (toL "MAIL FROM") (toL "<> SIZE=5") [toL "SIZE=5"]
    (by decide) (by decide) (by decide)

/-! ### Claim C4: byte-count bookkeeping of the data-mode session -/

theorem sumLen_append (xs ys : List (List Byte)) :
    sumLen (xs ++ ys) = sumLen xs + sumLen ys := by
  simp [sumLen]

/-- One `_feedDataStream` call in data mode: either no terminator was
found (still in data mode, `_dataBytes` grew by exactly the bytes
emitted), or the terminator ended the session and the reported
`byteLength` is the previous `_dataBytes` plus the bytes emitted in
this call, with `sizeExceeded` computed from the stored maximum; the
maximum, `isClosed` and the command remainder are untouched. -/
theorem feedDataStream_inv (st : ParserSt) (chunk : List Byte) :
    (((feedDataStream st chunk).1.ended = none ∧
      (feedDataStream st chunk).2.dataMode = st.dataMode ∧
      (feedDataStream st chunk).2.dataBytes =
        st.dataBytes + sumLen (feedDataStream st chunk).1.emitted) ∨
     (∃ rem, (feedDataStream st chunk).1.ended =
        some (st.dataBytes + sumLen (feedDataStream st chunk).1.emitted,
          maxExceeded st.dataMaxBytes
            (st.dataBytes + sumLen (feedDataStream st chunk).1.emitted),
          rem) ∧
      (feedDataStream st chunk).2.dataMode = false)) ∧
    (feedDataStream st chunk).2.dataMaxBytes = st.dataMaxBytes ∧
    (feedDataStream st chunk).2.isClosed = st.isClosed ∧
    (feedDataStream st chunk).2.cmdRemainder = st.cmdRemainder := by
  unfold feedDataStream
  dsimp only
  split
  · -- first-bytes ".\r\n": immediate end with empty body
    refine ⟨Or.inr ⟨List.drop 3 (st.lastBytes ++ chunk), ?_, rfl⟩, rfl, rfl, rfl⟩
    simp [endDataMode, maxExceeded, sumLen]
  · split
    · -- terminator found by the scan
      rename_i emits finalChunk rem heq
      refine ⟨Or.inr ⟨rem, ?_, rfl⟩, rfl, rfl, rfl⟩
      by_cases hfc : finalChunk.length = 0
      · simp [endDataMode, maxExceeded, sumLen_append, sumLen, hfc]
      · simp only [endDataMode, maxExceeded, sumLen_append, sumLen, hfc,
          if_false, List.map_append, List.map_cons, List.map_nil,
          List.sum_append, List.sum_cons, List.sum_nil]
        have harith : st.dataBytes + (List.map List.length emits).sum +
            finalChunk.length =
            st.dataBytes + ((List.map List.length emits).sum +
              (finalChunk.length + 0)) := by
          omega
        simp only [harith]
    · -- no terminator: trailing emit, keep ≤ 4 bytes
      rename_i emits emitTail keep heq
      refine ⟨Or.inl ⟨rfl, rfl, rfl⟩, rfl, rfl, rfl⟩

theorem feedDataMode_noop (st : ParserSt) (chunk : List Byte)
    (h : st.dataMode = false) : feedDataMode st chunk = (noOut, st) := by
  unfold feedDataMode
  rw [h]
  rfl

theorem runDataFeeds_noop (st : ParserSt) (chunks : List (List Byte))
    (h : st.dataMode = false) : runDataFeeds st chunks = (noOut, st) := by
  induction chunks with
  | nil => rfl
  | cons ck rest ih =>
    unfold runDataFeeds
    rw [feedDataMode_noop st ck h]
    dsimp only
    rw [ih]
    simp [noOut]

/-- Folding chunks through `feedDataMode`: as long as the session is
live the running `_dataBytes` equals the previous count plus all bytes
emitted; when the terminator fires, the reported `byteLength` is the
previous count plus all bytes emitted up to (and including) the final
chunk, and `sizeExceeded` is computed from the stored maximum. -/
theorem runDataFeeds_inv (chunks : List (List Byte)) (st : ParserSt)
    (hdm : st.dataMode = true) (hcl : st.isClosed = false) :
    ((runDataFeeds st chunks).1.ended = none ∧
      (runDataFeeds st chunks).2.dataMode = true ∧
      (runDataFeeds st chunks).2.isClosed = false ∧
      (runDataFeeds st chunks).2.dataMaxBytes = st.dataMaxBytes ∧
      (runDataFeeds st chunks).2.dataBytes =
        st.dataBytes + sumLen (runDataFeeds st chunks).1.emitted) ∨
    (∃ rem, (runDataFeeds st chunks).1.ended =
      some (st.dataBytes + sumLen (runDataFeeds st chunks).1.emitted,
        maxExceeded st.dataMaxBytes
          (st.dataBytes + sumLen (runDataFeeds st chunks).1.emitted),
        rem)) := by
  induction chunks generalizing st with
  | nil =>
    left
    exact ⟨rfl, hdm, hcl, rfl, by simp [runDataFeeds, noOut, sumLen]⟩
  | cons ck rest ih =>
    have hfd : feedDataMode st ck = feedDataStream st ck := by
      unfold feedDataMode
      rw [hdm, hcl]
      rfl
    have hinv := feedDataStream_inv st ck
    unfold runDataFeeds
    rw [hfd]
    dsimp only
    rcases hinv with ⟨hcase, hmax, hicl, hcmd⟩
    rcases hcase with ⟨hend, hdm2, hdb⟩ | ⟨rem, hend, hdm2⟩
    · have ih2 := ih (feedDataStream st ck).2 (hdm2.trans hdm) (hicl.trans hcl)
      rw [hend]
      dsimp only
      rcases ih2 with ⟨hend2, hdm3, hcl3, hmax3, hdb3⟩ | ⟨rem2, hend2⟩
      · left
        refine ⟨hend2, hdm3, hcl3, by rw [hmax3, hmax], ?_⟩
        rw [hdb3, hdb, sumLen_append]
        omega
      · right
        refine ⟨rem2, ?_⟩
        rw [hend2, hmax]
        have hbl : (feedDataStream st ck).2.dataBytes +
            sumLen (runDataFeeds (feedDataStream st ck).2 rest).1.emitted =
            st.dataBytes + sumLen ((feedDataStream st ck).1.emitted ++
              (runDataFeeds (feedDataStream st ck).2 rest).1.emitted) := by
          rw [hdb, sumLen_append]
          omega
        rw [hbl]
    · rw [runDataFeeds_noop _ rest hdm2]
      rw [hend]
      dsimp only
      right
      refine ⟨rem, ?_⟩
      dsimp only [noOut]
      rw [sumLen_append]
      simp [sumLen]

/-- `startDataMode` on a live socket: either nothing ended (fresh data
mode, `_dataBytes` counts exactly the bytes the flushed command-mode
remainder emitted) or the flushed remainder already contained the
terminator and the end event counts exactly the emitted bytes. -/
theorem startDataMode_inv (st0 : ParserSt) (maxBytes : Nat)
    (hcl : st0.isClosed = false) :
    ((startDataMode st0 maxBytes).1.ended = none ∧
      (startDataMode st0 maxBytes).2.dataMode = true ∧
      (startDataMode st0 maxBytes).2.isClosed = false ∧
      (startDataMode st0 maxBytes).2.dataMaxBytes =
        (if maxBytes = 0 then none else some maxBytes) ∧
      (startDataMode st0 maxBytes).2.dataBytes =
        sumLen (startDataMode st0 maxBytes).1.emitted) ∨
    (∃ rm, (startDataMode st0 maxBytes).1.ended =
        some (sumLen (startDataMode st0 maxBytes).1.emitted,
          maxExceeded (if maxBytes = 0 then none else some maxBytes)
            (sumLen (startDataMode st0 maxBytes).1.emitted), rm) ∧
      (startDataMode st0 maxBytes).2.dataMode = false) := by
  unfold startDataMode
  dsimp only
  split
  · left
    exact ⟨rfl, rfl, hcl, rfl, by simp [noOut, sumLen]⟩
  · have hinv := feedDataStream_inv
      { cmdRemainder := ([] : List Byte), lastBytes := ([] : List Byte),
        dataMode := true, dataBytes := 0,
        dataMaxBytes := (if maxBytes = 0 then none else some maxBytes),
        isClosed := st0.isClosed }
      st0.cmdRemainder
    rcases hinv with ⟨hcase, hmax, hicl, _⟩
    rcases hcase with ⟨hend, hdm2, hdb⟩ | ⟨rm, hend, hdm2⟩
    · left
      exact ⟨hend, hdm2, hicl.trans hcl, hmax, by simpa using hdb⟩
    · right
      exact ⟨rm, by simpa using hend, hdm2⟩

/-- Claim C4: whenever a data-mode session started by
`startDataMode(maxBytes, …)` ends through the `\r\n.\r\n` terminator,
the `byteLength` handed to `onDataEnd` equals the total length of all
chunks delivered to `onData` during the session (unescaped bytes, not
wire bytes), and `sizeExceeded` is true exactly when a positive limit
was configured and `byteLength` exceeds it (a zero or absent limit is
stored as `Infinity`, which is never exceeded). -/
theorem byteLength_sums_emitted (cmdRem : List Byte) (maxBytes : Nat)
    (chunks : List (List Byte)) (bl : Nat) (se : Bool) (rem : List Byte)
    (h : (runDataSession cmdRem maxBytes chunks).1.ended = some (bl, se, rem)) :
    bl = sumLen (runDataSession cmdRem maxBytes chunks).1.emitted ∧
    (se = true ↔ (maxBytes ≠ 0 ∧ maxBytes < bl)) := by
  have hse : ∀ n : Nat,
      (maxExceeded (if maxBytes = 0 then none else some maxBytes) n = true ↔
        (maxBytes ≠ 0 ∧ maxBytes < n)) := by
    intro n
    by_cases hz : maxBytes = 0
    · simp [maxExceeded, hz]
    · simp [maxExceeded, hz]
  have hstart := startDataMode_inv (sessionStartSt cmdRem) maxBytes rfl
  unfold runDataSession at h ⊢
  dsimp only at h ⊢
  rcases hstart with ⟨hend0, hdm0, hcl0, hmax0, hdb0⟩ | ⟨rm, hend0, hdm0⟩
  · have hfeeds := runDataFeeds_inv chunks
      (startDataMode (sessionStartSt cmdRem) maxBytes).2 hdm0 hcl0
    rw [hend0] at h
    dsimp only at h
    rcases hfeeds with ⟨hend1, _, _, _, _⟩ | ⟨rem2, hend1⟩
    · rw [hend1] at h
      cases h
    · rw [hmax0, hdb0] at hend1
      rw [hend1] at h
      injection h with hpair
      injection hpair with hbl hrest
      injection hrest with hsev _
      constructor
      · rw [← hbl, sumLen_append]
      · rw [← hsev, ← hbl]
        exact hse _
  · rw [runDataFeeds_noop _ chunks hdm0]
    rw [hend0] at h
    dsimp only [noOut] at h
    injection h with hpair
    injection hpair with hbl hrest
    injection hrest with hsev _
    constructor
    · rw [← hbl, sumLen_append]
      simp [noOut, sumLen]
    · rw [← hsev, ← hbl]
      exact hse _

theorem byteLength_sums_emitted_witness :
    (runDataSession [] 3 [[104, 105, 13, 10], [109, 111, 114, 101, 13, 10, 46, 13, 10]]).1.ended =
      some (10, true, []) ∧
    (10 : Nat) = sumLen (runDataSession [] 3
      [[104, 105, 13, 10], [109, 111, 114, 101, 13, 10, 46, 13, 10]]).1.emitted ∧
    (true = true ↔ ((3 : Nat) ≠ 0 ∧ (3 : Nat) < 10)) :=
  ⟨by decide,
   (byteLength_sums_emitted [] 3
     [[104, 105, 13, 10], [109, 111, 114, 101, 13, 10, 46, 13, 10]]
     10 true [] (by decide)).1,
   (byteLength_sums_emitted [] 3
     [[104, 105, 13, 10], [109, 111, 114, 101, 13, 10, 46, 13, 10]]
     10 true [] (by decide)).2⟩

/-! ### Claim C2: the single-chunk DATA body transformation

The goal is to compare `_feedDataStream` on one chunk holding exactly
one `\r\n.\r\n` with the specification's unstuffing `specUnstuff`.
The lemmas below characterise the slices, the event scan and the
specification function, and are assembled in
`dataStream_single_chunk_unstuffs`. -/

theorem slice_nil (c : List Byte) (i j : Nat) (h : j ≤ i) : slice c i j = [] := by
  unfold slice
  rw [Nat.sub_eq_zero_of_le h]
  rfl

theorem slice_cons (c : List Byte) (i j : Nat) (hij : i < j)
    (hlen : i < c.length) :
    slice c i j = byteAt c i :: slice c (i + 1) j := by
  unfold slice byteAt
  have h1 : c.drop i = c.get ⟨i, hlen⟩ :: c.drop (i + 1) :=
    List.drop_eq_getElem_cons hlen
  have h2 : c.getD i 0 = c.get ⟨i, hlen⟩ := List.getD_eq_getElem c 0 hlen
  have h3 : j - i = (j - (i + 1)) + 1 := by omega
  rw [h1, h2, h3, List.take_succ_cons]

theorem head?_slice (c : List Byte) (i j : Nat) (hij : i < j)
    (hlen : i < c.length) :
    (slice c i j).head? = some (byteAt c i) := by
  rw [slice_cons c i j hij hlen]
  rfl

theorem countOccur_pos (pat : List Byte) (hne : pat ≠ []) :
    ∀ (i : Nat) (s : List Byte), pat.isPrefixOf (s.drop i) = true →
      1 ≤ countOccur pat s := by
  intro i
  induction i with
  | zero =>
    intro s hp
    cases s with
    | nil =>
      cases pat with
      | nil => exact absurd rfl hne
      | cons x xs => simp [List.isPrefixOf] at hp
    | cons b rest =>
      rw [List.drop_zero] at hp
      unfold countOccur
      rw [hp, if_pos rfl]
      omega
  | succ i ih =>
    intro s hp
    cases s with
    | nil =>
      cases pat with
      | nil => exact absurd rfl hne
      | cons x xs => simp [List.isPrefixOf] at hp
    | cons b rest =>
      rw [List.drop_succ_cons] at hp
      have := ih rest hp
      unfold countOccur
      split <;> omega

theorem countOccur_unique (pat : List Byte) (hne : pat ≠ []) :
    ∀ (s : List Byte) (p q : Nat), countOccur pat s = 1 →
      pat.isPrefixOf (s.drop p) = true → pat.isPrefixOf (s.drop q) = true →
      p = q := by
  intro s
  induction s with
  | nil =>
    intro p q _ hp _
    rw [List.drop_nil] at hp
    cases pat with
    | nil => exact absurd rfl hne
    | cons x xs => simp [List.isPrefixOf] at hp
  | cons b rest ih =>
    intro p q h1 hp hq
    match p, q with
    | 0, 0 => rfl
    | 0, q + 1 =>
      exfalso
      rw [List.drop_zero] at hp
      rw [List.drop_succ_cons] at hq
      unfold countOccur at h1
      rw [hp, if_pos rfl] at h1
      have := countOccur_pos pat hne q rest hq
      omega
    | p + 1, 0 =>
      exfalso
      rw [List.drop_zero] at hq
      rw [List.drop_succ_cons] at hp
      unfold countOccur at h1
      rw [hq, if_pos rfl] at h1
      have := countOccur_pos pat hne p rest hp
      omega
    | p + 1, q + 1 =>
      rw [List.drop_succ_cons] at hp hq
      unfold countOccur at h1
      have hrest : countOccur pat rest = 1 := by
        have hpos := countOccur_pos pat hne p rest hp
        split at h1 <;> omega
      rw [ih p q hrest hp hq]

theorem len_c (a b : List Byte) :
    (a ++ endSeq ++ b).length = a.length + 5 + b.length := by
  simp [endSeq]
  omega

theorem byteAt_termRegion (a b : List Byte) (k : Nat) (hk : k < 5) :
    byteAt (a ++ endSeq ++ b) (a.length + k) = endSeq.getD k 0 := by
  unfold byteAt
  rw [List.append_assoc]
  rw [List.getD_append_right a (endSeq ++ b) 0 (a.length + k) (by omega)]
  have h2 : a.length + k - a.length = k := by omega
  rw [h2]
  exact List.getD_append endSeq b 0 k (by simpa [endSeq] using hk)

theorem byteAt_tCR (a b : List Byte) :
    byteAt (a ++ endSeq ++ b) a.length = bCR := by
  have h := byteAt_termRegion a b 0 (by omega)
  simpa using h

theorem byteAt_tLF1 (a b : List Byte) :
    byteAt (a ++ endSeq ++ b) (a.length + 1) = bLF :=
  byteAt_termRegion a b 1 (by omega)

theorem byteAt_tDOT (a b : List Byte) :
    byteAt (a ++ endSeq ++ b) (a.length + 2) = bDOT :=
  byteAt_termRegion a b 2 (by omega)

theorem termAt_t (a b : List Byte) :
    termAt (a ++ endSeq ++ b) (a.length + 2) = true := by
  unfold termAt
  have h1 : a.length + 2 - 2 = a.length := by omega
  rw [h1, List.append_assoc, List.drop_left]
  have h5 : (5 : Nat) = endSeq.length := rfl
  rw [h5, List.take_left]
  simp

theorem drop_t3 (a b : List Byte) :
    (a ++ endSeq ++ b).drop (a.length + 2 + 3) = b := by
  have h5 : a.length + 2 + 3 = (a ++ endSeq).length := by
    simp [endSeq]
  rw [h5]
  exact List.drop_left (a ++ endSeq) b

theorem take_t (a b : List Byte) :
    (a ++ endSeq ++ b).take (a.length + 2) = a ++ [bCR, bLF] := by
  rw [List.append_assoc, List.take_append_eq_append_take]
  have h1 : a.take (a.length + 2) = a := List.take_of_length_le (by omega)
  have h2 : a.length + 2 - a.length = 2 := by omega
  rw [h1, h2]
  rfl

theorem term_unique (a b : List Byte)
    (huniq : countOccur endSeq (a ++ endSeq ++ b) = 1)
    (j : Nat) (hterm : termAt (a ++ endSeq ++ b) j = true) :
    j = a.length + 2 := by
  unfold termAt at hterm
  rw [Bool.and_eq_true] at hterm
  obtain ⟨h2j, htake⟩ := hterm
  rw [decide_eq_true_eq] at h2j
  rw [beq_iff_eq] at htake
  have hpre1 : endSeq.isPrefixOf ((a ++ endSeq ++ b).drop (j - 2)) = true := by
    apply List.isPrefixOf_iff_prefix.mpr
    apply List.prefix_iff_eq_take.mpr
    exact htake.symm
  have hpre2 : endSeq.isPrefixOf ((a ++ endSeq ++ b).drop a.length) = true := by
    rw [List.append_assoc, List.drop_left]
    exact List.isPrefixOf_iff_prefix.mpr (List.prefix_append endSeq b)
  have := countOccur_unique endSeq (by decide) (a ++ endSeq ++ b) (j - 2)
    a.length huniq hpre1 hpre2
  omega

theorem findEvent_some (c : List Byte) :
    ∀ (fuel i j : Nat), findEvent c fuel i = some j →
      i ≤ j ∧ j + 2 < c.length ∧ evtAt c j = true ∧
      ∀ k, i ≤ k → k < j → evtAt c k = false := by
  intro fuel
  induction fuel with
  | zero => intro i j h; cases h
  | succ fuel ih =>
    intro i j h
    unfold findEvent at h
    split at h
    · rename_i hbound
      split at h
      · rename_i hevt
        injection h with hj
        subst hj
        exact ⟨le_refl _, hbound, hevt, fun k hk1 hk2 => absurd hk1 (by omega)⟩
      · rename_i hnevt
        simp only [Bool.not_eq_true] at hnevt
        obtain ⟨h1, h2, h3, h4⟩ := ih (i + 1) j h
        refine ⟨by omega, h2, h3, ?_⟩
        intro k hk1 hk2
        rcases Nat.eq_or_lt_of_le hk1 with heq | hlt
        · rw [← heq]
          exact hnevt
        · exact h4 k (by omega) hk2
    · cases h

theorem findEvent_none (c : List Byte) :
    ∀ (fuel i : Nat), findEvent c fuel i = none → c.length ≤ fuel + i →
      ∀ k, i ≤ k → k + 2 < c.length → evtAt c k = false := by
  intro fuel
  induction fuel with
  | zero =>
    intro i _ had k hk1 hk2
    omega
  | succ fuel ih =>
    intro i h had k hk1 hk2
    unfold findEvent at h
    split at h
    · split at h
      · cases h
      · rename_i hnevt
        simp only [Bool.not_eq_true] at hnevt
        rcases Nat.eq_or_lt_of_le hk1 with heq | hlt
        · rw [← heq]
          exact hnevt
        · exact ih (i + 1) h (by omega) k (by omega) hk2
    · rename_i hb
      omega

/-- The condition on which `specUnstuff` deletes the head byte of the
slice `[i, e)`, shown false whenever position `i` is not a drop
position. -/
theorem specUnstuff_nil (ls : Bool) : specUnstuff ls [] = [] := by
  cases ls <;> rfl

theorem specCond_false (c : List Byte) (i e : Nat) (hie : i < e)
    (hlen : e ≤ c.length) (hnd : ¬ specDropAt c e i) :
    (lsAt c i && (byteAt c i == bDOT) &&
      ((slice c (i + 1) e).head? == some bDOT)) = false := by
  by_contra hc
  rw [Bool.not_eq_false, Bool.and_eq_true, Bool.and_eq_true] at hc
  obtain ⟨⟨hA, hB⟩, hC⟩ := hc
  rw [beq_iff_eq] at hB
  have hi1e : i + 1 < e := by
    by_contra hge
    rw [slice_nil c (i + 1) e (by omega)] at hC
    simp at hC
  rw [head?_slice c (i + 1) e hi1e (by omega)] at hC
  rw [beq_iff_eq, Option.some_inj] at hC
  exact hnd ⟨hA, hB, hi1e, hC⟩

theorem lsAt_succ (c : List Byte) (i : Nat) :
    lsAt c (i + 1) = (byteAt c i == bLF) := by
  unfold lsAt
  rw [if_neg (by omega)]
  simp

theorem specUnstuff_no_drop (c : List Byte) :
    ∀ (n i j : Nat), j - i ≤ n → j ≤ c.length →
      (∀ k, i ≤ k → k < j → ¬ specDropAt c j k) →
      specUnstuff (lsAt c i) (slice c i j) = slice c i j := by
  intro n
  induction n with
  | zero =>
    intro i j hn _ _
    rw [slice_nil c i j (by omega)]
    exact specUnstuff_nil _
  | succ n ih =>
    intro i j hn hlen hnd
    by_cases hij : j ≤ i
    · rw [slice_nil c i j hij]
      exact specUnstuff_nil _
    · push_neg at hij
      have hilen : i < c.length := by omega
      rw [slice_cons c i j hij hilen]
      unfold specUnstuff
      rw [specCond_false c i j hij hlen (hnd i (le_refl i) hij)]
      dsimp only
      rw [← lsAt_succ c i]
      rw [ih (i + 1) j (by omega) hlen (fun k hk1 hk2 => hnd k (by omega) hk2)]

theorem specUnstuff_drop_head (c : List Byte) (j e : Nat) (hje : j + 1 < e)
    (hlen : e ≤ c.length) (hls : lsAt c j = true) (hdot : byteAt c j = bDOT)
    (hdot2 : byteAt c (j + 1) = bDOT) :
    specUnstuff (lsAt c j) (slice c j e) =
      specUnstuff false (slice c (j + 1) e) := by
  have hcond : (lsAt c j && (byteAt c j == bDOT) &&
      ((slice c (j + 1) e).head? == some bDOT)) = true := by
    rw [hls, hdot, head?_slice c (j + 1) e (by omega) (by omega), hdot2]
    simp
  rw [slice_cons c j e (by omega) (by omega)]
  conv_lhs => unfold specUnstuff
  rw [hcond]

theorem specUnstuff_drop_split (c : List Byte) :
    ∀ (n i j e : Nat), j - i ≤ n → i ≤ j → j + 1 < e → e ≤ c.length →
      (∀ k, i ≤ k → k < j → ¬ specDropAt c e k) →
      lsAt c j = true → byteAt c j = bDOT → byteAt c (j + 1) = bDOT →
      specUnstuff (lsAt c i) (slice c i e) =
        slice c i j ++ specUnstuff false (slice c (j + 1) e) := by
  intro n
  induction n with
  | zero =>
    intro i j e hn hij hje hlen _ hls hdot hdot2
    have hij' : i = j := by omega
    subst hij'
    rw [slice_nil c i i (le_refl i), List.nil_append]
    exact specUnstuff_drop_head c i e hje hlen hls hdot hdot2
  | succ n ih =>
    intro i j e hn hij hje hlen hnd hls hdot hdot2
    by_cases hij' : i = j
    · subst hij'
      rw [slice_nil c i i (le_refl i), List.nil_append]
      exact specUnstuff_drop_head c i e hje hlen hls hdot hdot2
    · have hlt : i < j := by omega
      have hilen : i < c.length := by omega
      rw [slice_cons c i e (by omega) hilen]
      conv_lhs => unfold specUnstuff
      rw [specCond_false c i e (by omega) hlen (hnd i (le_refl i) hlt)]
      dsimp only
      rw [← lsAt_succ c i]
      rw [ih (i + 1) j e (by omega) (by omega) hje hlen
        (fun k hk1 hk2 => hnd k (by omega) hk2) hls hdot hdot2]
      rw [slice_cons c i j hlt hilen]
      rw [List.cons_append]

/-- Positions strictly between the scan window's first two slots and
the cut `j` are drop-free for the specification whenever the scan saw
no events there: a specification drop is exactly a dot-escape event
(the two slots the scan never examines are discharged separately). -/
theorem region_no_drops (c : List Byte) (tpos start j : Nat)
    (h0 : ¬ specDropAt c tpos start)
    (h1 : ¬ specDropAt c tpos (start + 1))
    (hno : ∀ k, start + 2 ≤ k → k < j → evtAt c k = false) :
    ∀ k, start ≤ k → k < j → ¬ specDropAt c tpos k := by
  intro k hk1 hk2 hd
  by_cases hk0 : k = start
  · exact h0 (hk0 ▸ hd)
  by_cases hk1' : k = start + 1
  · exact h1 (hk1' ▸ hd)
  have hk2' : start + 2 ≤ k := by omega
  obtain ⟨hls, hdot, hlt, hdot2⟩ := hd
  have hknz : k ≠ 0 := by omega
  have hprev : byteAt c (k - 1) = bLF := by
    unfold lsAt at hls
    rw [if_neg hknz] at hls
    exact beq_iff_eq.mp hls
  have hevt : evtAt c k = true := by
    unfold evtAt dotAtLineStart escAt
    rw [hdot, hdot2, hprev]
    simp
  rw [hno k hk2' hk2] at hevt
  cases hevt

theorem evtAt_t (a b : List Byte) :
    evtAt (a ++ endSeq ++ b) (a.length + 2) = true := by
  unfold evtAt dotAtLineStart
  have hsub : a.length + 2 - 1 = a.length + 1 := by omega
  rw [byteAt_tDOT, hsub, byteAt_tLF1, termAt_t]
  simp

/-- The labelled scan on a chunk holding exactly one `\r\n.\r\n`,
entered below the terminator with the two unexamined slots drop-free:
it ends at the terminator, hands back exactly the post-terminator
bytes, and the concatenation of everything it emits (with the final
`_endDataMode` slice) is the specification's unstuffing of the region
up to and including the `\r\n` before the terminator dot. -/
theorem scanLoop_main (a b : List Byte)
    (huniq : countOccur endSeq (a ++ endSeq ++ b) = 1) :
    ∀ (fuel start : Nat),
      start + 2 ≤ a.length + 2 →
      a.length + 2 < fuel + start →
      ¬ specDropAt (a ++ endSeq ++ b) (a.length + 2) start →
      ¬ specDropAt (a ++ endSeq ++ b) (a.length + 2) (start + 1) →
      ∃ emits final,
        scanLoop (a ++ endSeq ++ b) fuel start =
          (emits, ScanOut.ended final b) ∧
        joinL emits ++ final =
          specUnstuff (lsAt (a ++ endSeq ++ b) start)
            (slice (a ++ endSeq ++ b) start (a.length + 2)) := by
  intro fuel
  induction fuel with
  | zero =>
    intro start h1 h2 _ _
    omega
  | succ fuel ih =>
    intro start h1 h2 hd0 hd1
    have hlenc := len_c a b
    cases hfe : findEvent (a ++ endSeq ++ b) (a ++ endSeq ++ b).length
        (start + 2) with
    | none =>
      exfalso
      have := findEvent_none (a ++ endSeq ++ b) (a ++ endSeq ++ b).length
        (start + 2) hfe (by omega) (a.length + 2) (by omega) (by omega)
      rw [evtAt_t a b] at this
      cases this
    | some j =>
      obtain ⟨hij, hjb, hevt, hmin⟩ :=
        findEvent_some (a ++ endSeq ++ b) (a ++ endSeq ++ b).length
          (start + 2) j hfe
      have hjt : j ≤ a.length + 2 := by
        by_contra hgt
        have := hmin (a.length + 2) (by omega) (by omega)
        rw [evtAt_t a b] at this
        cases this
      by_cases htj : termAt (a ++ endSeq ++ b) j = true
      · -- the event is the terminator
        have hjeq : j = a.length + 2 := term_unique a b huniq j htj
        subst hjeq
        refine ⟨[], slice (a ++ endSeq ++ b) start (a.length + 2), ?_, ?_⟩
        · unfold scanLoop
          rw [hfe]
          dsimp only
          rw [if_pos htj, drop_t3 a b]
        · rw [joinL, List.flatten_nil, List.nil_append]
          exact (specUnstuff_no_drop (a ++ endSeq ++ b)
            (a.length + 2 - start) start (a.length + 2) (by omega) (by omega)
            (region_no_drops (a ++ endSeq ++ b) (a.length + 2) start
              (a.length + 2) hd0 hd1 hmin)).symm
      · -- the event is a dot-escape
        have hjlt : j < a.length + 2 := by
          rcases Nat.eq_or_lt_of_le hjt with heq | hlt
          · exact absurd (heq ▸ termAt_t a b) htj
          · exact hlt
        have hevt' := hevt
        unfold evtAt dotAtLineStart escAt at hevt'
        rw [Bool.and_eq_true, Bool.and_eq_true, Bool.or_eq_true] at hevt'
        obtain ⟨⟨hdotj, hprevj⟩, hor⟩ := hevt'
        rw [beq_iff_eq] at hdotj hprevj
        have hescj : byteAt (a ++ endSeq ++ b) (j + 1) = bDOT := by
          rcases hor with hterm | hesc
          · exact absurd hterm htj
          · exact beq_iff_eq.mp hesc
        have hne1 : j ≠ a.length + 1 := by
          intro he
          rw [he, byteAt_tLF1 a b] at hdotj
          cases hdotj
        have hne0 : j ≠ a.length := by
          intro he
          rw [he, byteAt_tCR a b] at hdotj
          cases hdotj
        have hj3 : j + 3 ≤ a.length + 2 := by omega
        have hlsj1 : lsAt (a ++ endSeq ++ b) (j + 1) = false := by
          rw [lsAt_succ, hdotj]
          rfl
        have hlsj2 : lsAt (a ++ endSeq ++ b) (j + 2) = false := by
          rw [lsAt_succ, hescj]
          rfl
        obtain ⟨emits', final', hscan', hjoin'⟩ := ih (j + 1)
          (by omega) (by omega)
          (by intro hd; exact absurd hd.1 (by rw [hlsj1]; simp))
          (by intro hd; exact absurd hd.1 (by rw [hlsj2]; simp))
        refine ⟨(if (slice (a ++ endSeq ++ b) start j).length = 0 then emits'
                 else slice (a ++ endSeq ++ b) start j :: emits'), final', ?_, ?_⟩
        · unfold scanLoop
          rw [hfe]
          dsimp only
          rw [if_neg htj]
          rw [hscan']
        · have hlsj : lsAt (a ++ endSeq ++ b) j = true := by
            unfold lsAt
            rw [if_neg (by omega), hprevj]
            simp
          have hsplit := specUnstuff_drop_split (a ++ endSeq ++ b)
            (j - start) start j (a.length + 2) (by omega) (by omega)
            (by omega) (by omega)
            (region_no_drops (a ++ endSeq ++ b) (a.length + 2) start j
              hd0 hd1 (fun k hk1 hk2 => hmin k hk1 (by omega)))
            hlsj hdotj hescj
          rw [hsplit]
          rw [hlsj1] at hjoin'
          by_cases hbe : (slice (a ++ endSeq ++ b) start j).length = 0
          · rw [if_pos hbe]
            rw [List.length_eq_zero.mp hbe, List.nil_append]
            exact hjoin'
          · rw [if_neg hbe]
            rw [joinL, List.flatten_cons, ← joinL, List.append_assoc]
            rw [hjoin']

/-- `_feedDataStream` on a fresh data-mode parser (no buffered bytes,
zero byte count, no size limit) whose scan finds the terminator: the
emitted list is the scan's emits plus the nonempty final chunk, and
the end event reports the total emitted bytes with the
post-terminator remainder. -/
theorem feedDataStream_ended_shape (st : ParserSt) (chunk : List Byte)
    (emits : List (List Byte)) (final rem : List Byte)
    (hlb : st.lastBytes = [])
    (hdb : st.dataBytes = 0)
    (hmax : st.dataMaxBytes = none)
    (h3 : (chunk.take 3 == [bDOT, bCR, bLF]) = false)
    (hscan : scanLoop chunk (chunk.length + 1)
        (if chunk.take 2 == [bDOT, bDOT] then 1 else 0) =
      (emits, ScanOut.ended final rem)) :
    (feedDataStream st chunk).1 =
      { emitted := emits ++ (if final.length = 0 then [] else [final]),
        ended := some (sumLen emits + final.length, false, rem) } := by
  unfold feedDataStream
  dsimp only
  rw [hlb, List.nil_append, hdb]
  simp only [beq_self_eq_true, Bool.true_and, h3]
  rw [if_neg (by decide : ¬((false : Bool) = true))]
  rw [hscan]
  dsimp only
  unfold endDataMode
  dsimp only
  rw [hmax]
  dsimp only
  rw [Nat.zero_add]

theorem joinL_tailEmit (emits : List (List Byte)) (final : List Byte) :
    joinL (emits ++ (if final.length = 0 then [] else [final])) =
      joinL emits ++ final := by
  by_cases hf : final.length = 0
  · rw [if_pos hf, List.length_eq_zero.mp hf]
    simp [joinL]
  · rw [if_neg hf]
    simp [joinL]

/-- C2: fed a byte string holding a single `\r\n.\r\n` to a fresh
data-mode parser, the parser obeys the specification's unstuffing
contract, except at the very first bytes: (i) a chunk beginning
`.\r\n` yields an empty body with everything after the three bytes as
remainder; (ii) for a chunk `a ++ "\r\n.\r\n" ++ b` whose first three
bytes are neither `.\r\n` (case (i)) nor `\n..` — the code's scan
starts two slots past the start and so misses a dot-escape at offset
one — the concatenation of the emitted chunks is exactly the
specification's unstuffing (each `..` at the start of a line collapsed
to `.`) of `a ++ "\r\n"`, and the end event carries `b` unchanged as
the remainder. -/
theorem dataStream_single_chunk_unstuffs :
    (∀ b : List Byte,
      (feedDataMode (dataModeStart 0) ([bDOT, bCR, bLF] ++ b)).1 =
        { emitted := [], ended := some (0, false, b) }) ∧
    (∀ a b : List Byte,
      countOccur endSeq (a ++ endSeq ++ b) = 1 →
      (a ++ endSeq ++ b).take 3 ≠ [bDOT, bCR, bLF] →
      (a ++ endSeq ++ b).take 3 ≠ [bLF, bDOT, bDOT] →
      ∃ emitted n se,
        (feedDataMode (dataModeStart 0) (a ++ endSeq ++ b)).1 =
          { emitted := emitted, ended := some (n, se, b) } ∧
        joinL emitted = specUnstuff true (a ++ [bCR, bLF])) := by
  constructor
  · intro b
    rfl
  · intro a b huniq h3 h2
    have hlenc := len_c a b
    have h3' : ((a ++ endSeq ++ b).take 3 == [bDOT, bCR, bLF]) = false :=
      beq_eq_false_iff_ne.mpr h3
    have hfd : feedDataMode (dataModeStart 0) (a ++ endSeq ++ b) =
        feedDataStream (dataModeStart 0) (a ++ endSeq ++ b) := rfl
    have hslice0 : slice (a ++ endSeq ++ b) 0 (a.length + 2) =
        a ++ [bCR, bLF] := by
      unfold slice
      rw [List.drop_zero]
      exact take_t a b
    have htake2 : (a ++ endSeq ++ b).take 2 =
        [byteAt (a ++ endSeq ++ b) 0, byteAt (a ++ endSeq ++ b) 1] := by
      have e1 : slice (a ++ endSeq ++ b) 0 2 = (a ++ endSeq ++ b).take 2 := by
        unfold slice
        rw [List.drop_zero]
      rw [← e1, slice_cons _ 0 2 (by omega) (by omega),
        slice_cons _ 1 2 (by omega) (by omega), slice_nil _ 2 2 (le_refl 2)]
    by_cases hdd : (a ++ endSeq ++ b).take 2 = [bDOT, bDOT]
    · -- first two data bytes are "..": the source starts the scan at 1
      have ha : a ≠ [] := by
        intro h
        subst h
        have he : ((([] : List Byte) ++ endSeq ++ b).take 2) = [bCR, bLF] := rfl
        rw [he] at hdd
        exact absurd hdd (by decide)
      have ha1 : 1 ≤ a.length := by
        cases a with
        | nil => exact absurd rfl ha
        | cons x xs => simp
      have hdd2 := hdd
      rw [htake2] at hdd2
      injection hdd2 with h0 hdd3
      injection hdd3 with h1 _
      have hls1 : lsAt (a ++ endSeq ++ b) 1 = false := by
        show lsAt (a ++ endSeq ++ b) (0 + 1) = false
        rw [lsAt_succ, h0]
        decide
      have hls2 : lsAt (a ++ endSeq ++ b) 2 = false := by
        show lsAt (a ++ endSeq ++ b) (1 + 1) = false
        rw [lsAt_succ, h1]
        decide
      obtain ⟨emits, final, hscan, hjoin⟩ :=
        scanLoop_main a b huniq ((a ++ endSeq ++ b).length + 1) 1
          (by omega) (by omega)
          (fun hd => by
            have h := hd.1
            rw [hls1] at h
            exact absurd h (by decide))
          (fun hd => by
            have h : lsAt (a ++ endSeq ++ b) 2 = true := hd.1
            rw [hls2] at h
            exact absurd h (by decide))
      have hif : (if (a ++ endSeq ++ b).take 2 == [bDOT, bDOT] then 1 else 0)
          = 1 := by
        rw [hdd]
        rfl
      have hscan' : scanLoop (a ++ endSeq ++ b) ((a ++ endSeq ++ b).length + 1)
          (if (a ++ endSeq ++ b).take 2 == [bDOT, bDOT] then 1 else 0) =
          (emits, ScanOut.ended final b) := by
        rw [hif]
        exact hscan
      refine ⟨emits ++ (if final.length = 0 then [] else [final]),
        sumLen emits + final.length, false, ?_, ?_⟩
      · rw [hfd]
        exact feedDataStream_ended_shape (dataModeStart 0) _ emits final b
          rfl rfl rfl h3' hscan'
      · rw [joinL_tailEmit, hjoin, hls1, ← hslice0]
        have hdrop := specUnstuff_drop_head (a ++ endSeq ++ b) 0
          (a.length + 2) (by omega) (by omega) rfl h0 h1
        exact hdrop.symm
    · -- no leading "..": the scan starts at 0
      have hd0 : ¬ specDropAt (a ++ endSeq ++ b) (a.length + 2) 0 := by
        intro hd
        obtain ⟨_, hdot, _, hdot2⟩ := hd
        apply hdd
        have hdot2' : byteAt (a ++ endSeq ++ b) 1 = bDOT := hdot2
        rw [htake2, hdot, hdot2']
      have hd1 : ¬ specDropAt (a ++ endSeq ++ b) (a.length + 2) (0 + 1) := by
        intro hd
        obtain ⟨hls, hdot, _, hdot2⟩ := hd
        apply h2
        have htake3 : (a ++ endSeq ++ b).take 3 =
            [byteAt (a ++ endSeq ++ b) 0, byteAt (a ++ endSeq ++ b) 1,
             byteAt (a ++ endSeq ++ b) 2] := by
          have e1 : slice (a ++ endSeq ++ b) 0 3 =
              (a ++ endSeq ++ b).take 3 := by
            unfold slice
            rw [List.drop_zero]
          rw [← e1, slice_cons _ 0 3 (by omega) (by omega),
            slice_cons _ 1 3 (by omega) (by omega),
            slice_cons _ 2 3 (by omega) (by omega),
            slice_nil _ 3 3 (le_refl 3)]
        have hb0 : byteAt (a ++ endSeq ++ b) 0 = bLF := by
          rw [lsAt_succ] at hls
          exact beq_iff_eq.mp hls
        have hb1 : byteAt (a ++ endSeq ++ b) 1 = bDOT := hdot
        have hb2 : byteAt (a ++ endSeq ++ b) 2 = bDOT := hdot2
        rw [htake3, hb0, hb1, hb2]
      obtain ⟨emits, final, hscan, hjoin⟩ :=
        scanLoop_main a b huniq ((a ++ endSeq ++ b).length + 1) 0
          (by omega) (by omega) hd0 hd1
      have hif : (if (a ++ endSeq ++ b).take 2 == [bDOT, bDOT] then 1 else 0)
          = 0 := by
        rw [beq_eq_false_iff_ne.mpr hdd]
        rfl
      have hscan' : scanLoop (a ++ endSeq ++ b) ((a ++ endSeq ++ b).length + 1)
          (if (a ++ endSeq ++ b).take 2 == [bDOT, bDOT] then 1 else 0) =
          (emits, ScanOut.ended final b) := by
        rw [hif]
        exact hscan
      have hls0 : lsAt (a ++ endSeq ++ b) 0 = true := rfl
      rw [hls0, hslice0] at hjoin
      refine ⟨emits ++ (if final.length = 0 then [] else [final]),
        sumLen emits + final.length, false, ?_, ?_⟩
      · rw [hfd]
        exact feedDataStream_ended_shape (dataModeStart 0) _ emits final b
          rfl rfl rfl h3' hscan'
      · rw [joinL_tailEmit, hjoin]

theorem dataStream_single_chunk_unstuffs_witness :
    (feedDataMode (dataModeStart 0) ([bDOT, bCR, bLF] ++ [65, 66])).1 =
      { emitted := [], ended := some (0, false, [65, 66]) } ∧
    (countOccur endSeq
        ([72, 105, 13, 10, 46, 46, 120] ++ endSeq ++ [81, 85]) = 1 ∧
      ∃ emitted n se,
        (feedDataMode (dataModeStart 0)
            ([72, 105, 13, 10, 46, 46, 120] ++ endSeq ++ [81, 85])).1 =
          { emitted := emitted, ended := some (n, se, [81, 85]) } ∧
        joinL emitted =
          specUnstuff true ([72, 105, 13, 10, 46, 46, 120] ++ [bCR, bLF])) :=
  ⟨dataStream_single_chunk_unstuffs.1 [65, 66],
   by decide,
   dataStream_single_chunk_unstuffs.2 [72, 105, 13, 10, 46, 46, 120] [81, 85]
     (by decide) (by decide) (by decide)⟩

theorem bool_eq_false_of_ne_true {b : Bool} (h : ¬ b = true) : b = false := by
  cases b
  · rfl
  · exact absurd rfl h

/-- Every entry of the `CONTEXTUAL_STATUS_CODES` table is a nonempty
string. -/
theorem contextualStatusCode_ne_nil (t : List Char) :
    contextualStatusCode t ≠ some [] := by
  intro h
  unfold contextualStatusCode at h
  cases hf : contextualTable.find? (fun p => p.1 == t) with
  | none =>
    rw [hf] at h
    exact Option.noConfusion h
  | some a =>
    rw [hf] at h
    injection h with h2
    have hall : ∀ p ∈ contextualTable, p.2 ≠ ([] : List Char) := by decide
    exact hall a (List.mem_of_find?_eq_some hf) h2

/-- Every entry of the `ENHANCED_STATUS_CODES` table is a nonempty
string. -/
theorem enhancedStatusCode_ne_nil (code : Nat) :
    enhancedStatusCode code ≠ some [] := by
  intro h
  unfold enhancedStatusCode at h
  split at h
  all_goals first
    | exact Option.noConfusion h
    | (injection h with h2; exact absurd h2 (by decide))

/-- The `code === 334 && response === "334"` special case of
`buildResponse` cannot fire when the payload's length differs from 3
whenever the code is 334. -/
theorem cond334_false (code : Nat) (p : List Char)
    (h : code = 334 → p.length ≠ 3) :
    (code == 334 && (p == toL "334")) = false := by
  by_cases hc : code = 334
  · subst hc
    have hp : (p == toL "334") = false := by
      apply beq_eq_false_iff_ne.mpr
      intro he
      apply h rfl
      rw [he]
      rfl
    rw [hp, Bool.and_false]
  · rw [beq_eq_false_iff_ne.mpr hc, Bool.false_and]

/-- `buildResponse` on a nonempty message: the reply is the code, then
the enhanced status code when `getEnhancedCode` produced one, then the
message. -/
theorem buildResponse_shape (hideESC : Bool) (code : Nat)
    (message : List Char) (c : RespContext) (hmsg : message ≠ []) :
    buildResponse hideESC code message c =
      (if getEnhancedCode hideESC code c = [] then
        natToChars code ++ [' '] ++ message
      else
        natToChars code ++ [' '] ++ getEnhancedCode hideESC code c ++
          [' '] ++ message) ++ crlf := by
  have hff : ¬((false : Bool) = true) := by decide
  have hm : message.isEmpty = false := by
    cases hm2 : message.isEmpty with
    | true => exact absurd (List.isEmpty_iff.mp hm2) hmsg
    | false => rfl
  have hm1 : 1 ≤ message.length := by
    cases message with
    | nil => exact absurd rfl hmsg
    | cons x xs => simp
  have h334 : natToChars 334 = toL "334" := by decide
  have h334len : (toL "334").length = 3 := rfl
  unfold buildResponse
  dsimp only
  by_cases he : getEnhancedCode hideESC code c = []
  · have he' : (getEnhancedCode hideESC code c).isEmpty = true := by
      rw [he]
      rfl
    simp only [he', hm, Bool.not_true, Bool.not_false, Bool.false_and]
    rw [if_pos trivial]
    rw [if_neg hff, if_neg hff]
    have hcond := cond334_false code (natToChars code ++ [' '] ++ message)
      (by
        intro hc
        subst hc
        rw [h334]
        simp only [List.length_append, h334len]
        have : ([' '] : List Char).length = 1 := rfl
        rw [this]
        omega)
    rw [hcond, if_neg hff, if_pos he]
  · have he' : (getEnhancedCode hideESC code c).isEmpty = false := by
      cases h2 : (getEnhancedCode hideESC code c).isEmpty with
      | true => exact absurd (List.isEmpty_iff.mp h2) he
      | false => rfl
    simp only [he', hm, Bool.not_false, Bool.true_and]
    rw [if_pos trivial]
    have hcond := cond334_false code
      (natToChars code ++ [' '] ++ getEnhancedCode hideESC code c ++
        [' '] ++ message)
      (by
        intro hc
        subst hc
        rw [h334]
        simp only [List.length_append, h334len]
        have : ([' '] : List Char).length = 1 := rfl
        rw [this]
        omega)
    rw [hcond, if_neg hff, if_neg he]

/-- C6 (amended): for a reply with a nonempty message and a numeric
code of at least 200, the enhanced status code is nonempty — and then
appears in the built reply between the code and the message — exactly
when ENHANCEDSTATUSCODES is not hidden, the code is not 3xx, the
builder was not invoked with explicit suppression (`context === false`,
as the 220 greeting and the bare 250 after DATA do), and the reply is
not tagged with one of the EHLO-family commands (HELO/EHLO/LHLO). -/
theorem enhanced_code_appears_iff (hideESC : Bool) (code : Nat)
    (c : RespContext) (message : List Char)
    (hcode : 200 ≤ code) (hmsg : message ≠ []) :
    (getEnhancedCode hideESC code c ≠ [] ↔
      (hideESC = false ∧ ¬(300 ≤ code ∧ code < 400) ∧
       c ≠ RespContext.explicitFalse ∧
       ∀ t, c = RespContext.tag t →
         skippedEnhancedCommands.contains t = false)) ∧
    buildResponse hideESC code message c =
      (if getEnhancedCode hideESC code c = [] then
        natToChars code ++ [' '] ++ message
      else
        natToChars code ++ [' '] ++ getEnhancedCode hideESC code c ++
          [' '] ++ message) ++ crlf := by
  refine ⟨?_, buildResponse_shape hideESC code message c hmsg⟩
  constructor
  · -- nonempty forces all four conditions
    intro hne
    unfold getEnhancedCode at hne
    split at hne
    · exact absurd rfl hne
    · split at hne
      · exact absurd rfl hne
      · split at hne
        · exact absurd rfl hne
        · rename_i hA hB hC
          obtain ⟨hA1, h1⟩ : (c == RespContext.explicitFalse) = false ∧
              hideESC = false := by
            cases hce : (c == RespContext.explicitFalse) with
            | true => exact absurd (by rw [hce, Bool.true_or]) hA
            | false =>
              cases hesc : hideESC with
              | true => exact absurd (by rw [hesc, Bool.or_true]) hA
              | false => exact ⟨rfl, rfl⟩
          refine ⟨h1, ?_, beq_eq_false_iff_ne.mp hA1, ?_⟩
          · intro hrange
            exact hB (by
              rw [decide_eq_true hrange.1, decide_eq_true hrange.2]
              rfl)
          · intro t ht
            subst ht
            exact bool_eq_false_of_ne_true hC
  · -- the four conditions force a nonempty enhanced code
    intro hr
    obtain ⟨h1, h2, h3, h4⟩ := hr
    unfold getEnhancedCode
    split
    · rename_i hA
      exfalso
      rw [h1, Bool.or_false] at hA
      exact h3 (beq_iff_eq.mp hA)
    · split
      · rename_i hB
        rw [Bool.and_eq_true, decide_eq_true_eq, decide_eq_true_eq] at hB
        exact absurd hB h2
      · split
        · rename_i hC
          exfalso
          cases c with
          | undef => exact absurd hC (by decide)
          | explicitFalse => exact absurd hC (by decide)
          | tag t =>
            have hC' : skippedEnhancedCommands.contains t = true := hC
            rw [h4 t rfl] at hC'
            exact absurd hC' (by decide)
        · split
          · rename_i s hcv
            intro hs
            subst hs
            cases c with
            | undef => exact Option.noConfusion hcv
            | explicitFalse => exact Option.noConfusion hcv
            | tag t => exact contextualStatusCode_ne_nil t hcv
          · rename_i hcv
            split
            · rename_i s henh
              intro hs
              subst hs
              exact enhancedStatusCode_ne_nil code henh
            · rename_i henh
              rcases Nat.lt_or_ge code 300 with hlt | hge
              · rw [decide_eq_true hcode, decide_eq_true hlt, Bool.and_self]
                rw [if_pos rfl]
                decide
              · have h400 : 400 ≤ code := by
                  by_contra hno
                  exact h2 ⟨by omega, by omega⟩
                have hd300 : decide (code < 300) = false := by
                  apply decide_eq_false
                  omega
                rw [hd300, Bool.and_false, if_neg (by decide)]
                rcases Nat.lt_or_ge code 500 with hlt5 | hge5
                · rw [decide_eq_true h400, decide_eq_true hlt5,
                    Bool.and_self, if_pos rfl]
                  decide
                · have hd500 : decide (code < 500) = false := by
                    apply decide_eq_false
                    omega
                  rw [hd500, Bool.and_false, if_neg (by decide)]
                  rw [decide_eq_true hge5, if_pos rfl]
                  decide

theorem enhanced_code_appears_iff_witness :
    200 ≤ 250 ∧ toL "OK" ≠ [] ∧
    ((getEnhancedCode false 250 RespContext.undef ≠ [] ↔
      ((false : Bool) = false ∧ ¬(300 ≤ 250 ∧ 250 < 400) ∧
       RespContext.undef ≠ RespContext.explicitFalse ∧
       ∀ t, RespContext.undef = RespContext.tag t →
         skippedEnhancedCommands.contains t = false)) ∧
    buildResponse false 250 (toL "OK") RespContext.undef =
      (if getEnhancedCode false 250 RespContext.undef = [] then
        natToChars 250 ++ [' '] ++ toL "OK"
      else
        natToChars 250 ++ [' '] ++ getEnhancedCode false 250 RespContext.undef ++
          [' '] ++ toL "OK") ++ crlf) :=
  ⟨by decide, by decide,
   enhanced_code_appears_iff false 250 RespContext.undef (toL "OK")
     (by decide) (by decide)⟩

end BunSmtp
